import Mathlib

/-!
# Verification of the gift-planner offline-first sync engine

This file gives a shallow embedding, in Lean 4, of the synchronization core
of the gift-planner web application:

* `IDBWrapper` (src/js/db/idb-wrapper.js): the local store's `upsert`
  (Last-Write-Wins by `updatedAt`), `update` (stamp current time), and the
  sync-queue primitives (`addToSyncQueue`, `getSyncQueue`,
  `removeSyncQueueItem`, `updateSyncQueueItem`).
* `SyncManager` (src/js/services/SyncManager.js): `processQueue`,
  `pushToServer`, `pullFromServer`, `syncAll`, and the field-name
  translators `toSnakeCase` / `toCamelCase`.
* The service layer cascade logic: `HolidayService.create`,
  `HolidayService.delete`, `RecipientService.delete`, `GiftService.delete`.

Modelling conventions:

* JavaScript objects are association lists `Obj := List (String × Nat)` with
  *first-occurrence-wins* lookup (`objGet`), so the JS spread
  `{...a, ...b}` is embedded as the list `b ++ a`, and setting a property
  is embedded as consing the new binding in front.
* Values are abstracted as `Nat`.  ISO timestamp strings compare
  chronologically exactly as their `Nat` abstraction compares; a present
  timestamp string is always truthy, so `x || y` on such fields is embedded
  as `Option.getD` (`jsOr`).
* The remote backend, connectivity and session are oracles packaged in
  `Env`: `applyResult` gives the outcome of one remote apply of a queue
  item, `pullResult` the rows of one pull query, `pullDeleted` the ids of
  tombstoned remote rows.  They are functions of the request only, which
  models a remote whose behaviour during one pass is fixed.
* Event-bus emissions and remote calls are returned as explicit lists so
  theorems can speak about "no event emitted" / "no network call made".
-/

namespace GiftPlanner

/-- A JavaScript object: association list with first-occurrence-wins lookup.
Keys are property names, values are abstracted as `Nat`. -/
abbrev Obj := List (String × Nat)

/-- Property lookup, JS `o[k]`: first binding wins (later spreads are
embedded by consing/prepending in front). `none` models `undefined`. -/
def objGet (o : Obj) (k : String) : Option Nat :=
  (o.find? (fun p => p.1 == k)).map (·.2)

/-- JS `a || b` on a field that is either absent (`undefined`, falsy) or a
nonempty ISO timestamp string (always truthy). -/
def jsOr (a : Option Nat) (b : Nat) : Nat := a.getD b

/-- The comparison timestamp used by `IDBWrapper.upsert`:
`new Date(x.updatedAt || x.createdAt || 0)`. -/
def cmpTs (o : Obj) : Nat := jsOr (objGet o "updatedAt") (jsOr (objGet o "createdAt") 0)

/-- Outcome tag of `IDBWrapper.upsert` (the `action` field of its result). -/
inductive UpsertAction where
  | created
  | updated
  | skipped
  deriving DecidableEq, Repr

/-- Result of `IDBWrapper.upsert`: the `action` tag, the record the JS
function returns in `data`, and the record now stored under that id. -/
structure UpsertResult where
  action : UpsertAction
  data : Obj
  stored : Obj
  deriving DecidableEq, Repr

namespace IDBWrapper

/-- The `IDBWrapper.upsert(storeName, data)` viewed at a single id.
`existing` is the record currently stored under `data.id` (if any),
`now` is `new Date().toISOString()` at the moment of the call.

```js
if (existing) {
  const existingUpdated = new Date(existing.updatedAt || existing.createdAt || 0);
  const incomingUpdated = new Date(data.updatedAt || data.createdAt || 0);
  if (incomingUpdated >= existingUpdated) {
    const merged = { ...existing, ...data, updatedAt: new Date().toISOString() };
    await this.db.put(storeName, merged);
    return { action: 'updated', data: merged };
  }
  return { action: 'skipped', data: existing };
}
const newData = { ...data, createdAt: data.createdAt || new Date().toISOString() };
await this.db.put(storeName, newData);
return { action: 'created', data: newData };
``` -/
def upsert (existing : Option Obj) (data : Obj) (now : Nat) : UpsertResult :=
  match existing with
  | some e =>
      if cmpTs e ≤ cmpTs data then
        let merged : Obj := ("updatedAt", now) :: (data ++ e)
        ⟨.updated, merged, merged⟩
      else
        ⟨.skipped, e, e⟩
  | none =>
      let newData : Obj := ("createdAt", jsOr (objGet data "createdAt") now) :: data
      ⟨.created, newData, newData⟩

/-- The `IDBWrapper.update(storeName, data)`:
`data.updatedAt = new Date().toISOString(); await this.db.put(storeName, data)`.
The record stored under `data.id` becomes `data` with `updatedAt` stamped. -/
def update (data : Obj) (now : Nat) : Obj :=
  ("updatedAt", now) :: data

end IDBWrapper

example :
    (IDBWrapper.upsert (some [("x", 1), ("updatedAt", 50)]) [("x", 2), ("updatedAt", 60)] 100).action
      = .updated := by decide

example :
    (IDBWrapper.upsert (some [("x", 1), ("updatedAt", 50)]) [("x", 2), ("updatedAt", 40)] 100).action
      = .skipped := by decide

example :
    objGet (IDBWrapper.upsert (some [("x", 1), ("updatedAt", 50)])
      [("x", 2), ("updatedAt", 60)] 100).stored "updatedAt" = some 100 := by decide

/-! ## Sequences of upserts against a single id (claim C1) -/

/-- One call of a sequence of upserts against a single id: its `data`
argument together with the wall-clock time `now` at which it runs. -/
abbrev UpsertCall := Obj × Nat

/-- Apply one upsert call to the record stored under the id (if any) and
keep the resulting stored record. -/
def upsertStep (st : Option Obj) (c : UpsertCall) : Option Obj :=
  some (IDBWrapper.upsert st c.1 c.2).stored

/-- Run a sequence of upsert calls against a single id, oldest first. -/
def runUpserts (st : Option Obj) (calls : List UpsertCall) : Option Obj :=
  calls.foldl upsertStep st

/-- Spec-side selection of the call the claim designates as the winner:
maximum comparison timestamp, ties resolved to the most recently applied. -/
def pickWinner : Option UpsertCall → UpsertCall → Option UpsertCall
  | none, c => some c
  | some w, c => if cmpTs w.1 ≤ cmpTs c.1 then some c else some w

/-- The call with the maximum comparison timestamp in a sequence, ties
resolved to the most recently applied one (spec-side, from P1's words). -/
def winner (calls : List UpsertCall) : Option UpsertCall :=
  calls.foldl pickWinner none

theorem objGet_cons (k k' : String) (v : Nat) (o : Obj) :
    objGet ((k, v) :: o) k' = if k = k' then some v else objGet o k' := by
  by_cases h : k = k' <;> simp [objGet, List.find?_cons, h]

theorem objGet_append_of_some {a : Obj} {k : String} {v : Nat} (b : Obj)
    (h : objGet a k = some v) : objGet (a ++ b) k = some v := by
  unfold objGet at h ⊢
  rcases ha : a.find? (fun p => p.1 == k) with _ | p
  · rw [ha] at h; exact absurd h (by simp)
  · rw [List.find?_append, ha]; rw [ha] at h; simpa using h

theorem cmpTs_of_updatedAt {o : Obj} {t : Nat} (h : objGet o "updatedAt" = some t) :
    cmpTs o = t := by
  simp [cmpTs, jsOr, h]

/-- Invariant tying the current winner call to the stored record: the
stored comparison timestamp is the winner's, and every field the winner
supplied reads back with the winner's value. -/
def WinnerInv (w : UpsertCall) (r : Obj) : Prop :=
  cmpTs r = cmpTs w.1 ∧ ∀ k v, objGet w.1 k = some v → objGet r k = some v

theorem winnerInv_step_applied {c : UpsertCall} {r : Obj}
    (hc : objGet c.1 "updatedAt" = some c.2) (hle : cmpTs r ≤ cmpTs c.1) :
    upsertStep (some r) c = some (("updatedAt", c.2) :: (c.1 ++ r)) ∧
      WinnerInv c (("updatedAt", c.2) :: (c.1 ++ r)) := by
  have hts : cmpTs c.1 = c.2 := cmpTs_of_updatedAt hc
  constructor
  · simp only [upsertStep, IDBWrapper.upsert, if_pos hle]
  · constructor
    · have : objGet (("updatedAt", c.2) :: (c.1 ++ r)) "updatedAt" = some c.2 := by
        rw [objGet_cons]; simp
      rw [cmpTs_of_updatedAt this, hts]
    · intro k v hkv
      by_cases hk : k = "updatedAt"
      · subst hk
        rw [hc] at hkv
        rw [objGet_cons]; simpa using hkv
      · rw [objGet_cons, if_neg (fun h => hk h.symm)]
        exact objGet_append_of_some r hkv

theorem winnerInv_created {c : UpsertCall}
    (hc : objGet c.1 "updatedAt" = some c.2) :
    WinnerInv c (("createdAt", jsOr (objGet c.1 "createdAt") c.2) :: c.1) := by
  constructor
  · have : objGet (("createdAt", jsOr (objGet c.1 "createdAt") c.2) :: c.1) "updatedAt"
        = some c.2 := by
      rw [objGet_cons, if_neg (by simp), hc]
    rw [cmpTs_of_updatedAt this, cmpTs_of_updatedAt hc]
  · intro k v hkv
    by_cases hk : k = "createdAt"
    · subst hk
      rw [objGet_cons, if_pos rfl]
      rw [hkv]
      simp [jsOr]
    · rw [objGet_cons, if_neg (fun h => hk h.symm)]
      exact hkv

theorem winner_run_aux :
    ∀ (calls : List UpsertCall) (w : UpsertCall) (r : Obj),
      (∀ c ∈ calls, objGet c.1 "updatedAt" = some c.2) →
      WinnerInv w r →
      ∃ w' r', calls.foldl pickWinner (some w) = some w' ∧
        calls.foldl upsertStep (some r) = some r' ∧ WinnerInv w' r'
  | [], w, r, _, hInv => ⟨w, r, rfl, rfl, hInv⟩
  | c :: cs, w, r, hstamp, hInv => by
      have hc : objGet c.1 "updatedAt" = some c.2 := hstamp c (by simp)
      have hcs : ∀ c' ∈ cs, objGet c'.1 "updatedAt" = some c'.2 :=
        fun c' h => hstamp c' (by simp [h])
      by_cases hle : cmpTs w.1 ≤ cmpTs c.1
      · have hler : cmpTs r ≤ cmpTs c.1 := by rw [hInv.1]; exact hle
        obtain ⟨hstep, hInv'⟩ := winnerInv_step_applied hc hler
        have hpick : pickWinner (some w) c = some c := by
          simp [pickWinner, hle]
        simpa [List.foldl_cons, hpick, hstep] using
          winner_run_aux cs c (("updatedAt", c.2) :: (c.1 ++ r)) hcs hInv'
      · have hler : ¬ cmpTs r ≤ cmpTs c.1 := by rw [hInv.1]; exact hle
        have hstep : upsertStep (some r) c = some r := by
          simp only [upsertStep, IDBWrapper.upsert, if_neg hler]
        have hpick : pickWinner (some w) c = some w := by
          simp [pickWinner, hle]
        simpa [List.foldl_cons, hpick, hstep] using
          winner_run_aux cs w r hcs hInv

/-- C1: the per-call Last-Write-Wins outcomes of `IDBWrapper.upsert` are as
the claim describes them, but the claimed consequence — that the final
record of any sequence of upserts holds the fields of the call with the
maximum comparison timestamp — fails as stated, because an applied upsert
stamps a *fresh local* `updatedAt` instead of keeping the incoming one.
Amended consequence, proved here: if every call's data carries
`updatedAt` equal to the wall-clock time at which the call runs (so the
fresh stamp coincides with the incoming comparison timestamp), then the
final stored record's comparison timestamp is the winning call's, and every
field the winning call supplied reads back with the winning call's value,
the winner being the call with the maximum comparison timestamp, ties
resolved to the most recently applied call. -/
theorem C1_upsert_lww (calls : List UpsertCall)
    (hstamp : ∀ c ∈ calls, objGet c.1 "updatedAt" = some c.2) :
    ∀ w, winner calls = some w →
      ∃ r, runUpserts none calls = some r ∧
        cmpTs r = cmpTs w.1 ∧
        ∀ k v, objGet w.1 k = some v → objGet r k = some v := by
  intro w hw
  match calls, hstamp, hw with
  | [], _, hw => exact absurd hw (by simp [winner])
  | c :: cs, hstamp, hw =>
    have hc : objGet c.1 "updatedAt" = some c.2 := hstamp c (by simp)
    have hcs : ∀ c' ∈ cs, objGet c'.1 "updatedAt" = some c'.2 :=
      fun c' h => hstamp c' (by simp [h])
    have hInv0 := winnerInv_created hc
    obtain ⟨w', r', hw', hr', hInv'⟩ :=
      winner_run_aux cs c (("createdAt", jsOr (objGet c.1 "createdAt") c.2) :: c.1) hcs hInv0
    have hww : w' = w := by
      have hcc : winner (c :: cs) = some w' := by
        simpa [winner, List.foldl_cons, pickWinner] using hw'
      rw [hw] at hcc
      exact (Option.some.inj hcc).symm
    subst hww
    refine ⟨r', ?_, hInv'.1, hInv'.2⟩
    simpa [runUpserts, List.foldl_cons, upsertStep, IDBWrapper.upsert] using hr'

/-- C1, counterexample to the claim as stated: three upserts to one id with
strictly increasing incoming timestamps 50, 60, 70, run at local clock
times 100, 100, 101.  The second call is applied and stamped with the fresh
local time 100, so the third call — the one with the maximum comparison
timestamp, 70 — is skipped, and the final stored record holds the second
call's field `x = 2`, not the third call's `x = 3`. -/
theorem C1_counterexample :
    cmpTs [("x", 1), ("updatedAt", 50)] < cmpTs [("x", 3), ("updatedAt", 70)] ∧
    cmpTs [("x", 2), ("updatedAt", 60)] < cmpTs [("x", 3), ("updatedAt", 70)] ∧
    objGet [("x", 3), ("updatedAt", 70)] "x" = some 3 ∧
    objGet ((runUpserts none
        [([("x", 1), ("updatedAt", 50)], 100),
         ([("x", 2), ("updatedAt", 60)], 100),
         ([("x", 3), ("updatedAt", 70)], 101)]).getD []) "x" = some 2 := by
  decide

/-- Witness for `C1_upsert_lww` at a concrete three-call sequence whose
calls are stamped with their own clock times. -/
theorem C1_upsert_lww_witness :
    ∃ r, runUpserts none
        [([("x", 1), ("updatedAt", 5)], 5),
         ([("x", 3), ("updatedAt", 9)], 9),
         ([("x", 2), ("updatedAt", 7)], 7)] = some r ∧
      cmpTs r = cmpTs [("x", 3), ("updatedAt", 9)] ∧
      ∀ k v, objGet [("x", 3), ("updatedAt", 9)] k = some v → objGet r k = some v := by
  have h := C1_upsert_lww
    [([("x", 1), ("updatedAt", 5)], 5),
     ([("x", 3), ("updatedAt", 9)], 9),
     ([("x", 2), ("updatedAt", 7)], 7)]
    (by decide) ([("x", 3), ("updatedAt", 9)], 9) (by decide)
  exact h

/-! ## Timestamp monotonicity across store operations (claim C9) -/

/-- A local-store write against a single id, from `idb-wrapper.js`:
`update` stamps the current time onto the caller's record and puts it;
`upsert` applies Last-Write-Wins. -/
inductive StoreOp where
  | update (data : Obj)
  | upsert (data : Obj)
  deriving DecidableEq, Repr

/-- Execute one store operation, paired with the wall-clock time `now` at
which it runs, against the record stored under the id. -/
def storeOpStep (st : Option Obj) (p : StoreOp × Nat) : Option Obj :=
  match p.1 with
  | .update data => some (IDBWrapper.update data p.2)
  | .upsert data => some (IDBWrapper.upsert st data p.2).stored

/-- Execute a sequence of clocked store operations, oldest first. -/
def execOps (st : Option Obj) (ops : List (StoreOp × Nat)) : Option Obj :=
  ops.foldl storeOpStep st

/-- Comparison timestamp of the stored record; 0 when no record exists. -/
def stTs : Option Obj → Nat
  | some r => cmpTs r
  | none => 0

/-- Clock domination: the incoming data of an upsert run at clock `now`
carries a comparison timestamp at most `now` (incoming timestamps do not
run ahead of the local clock; an `update` stamps the clock itself, so it
needs no condition). -/
def OpClockOK : StoreOp × Nat → Prop
  | (.update _, _) => True
  | (.upsert data, c) => cmpTs data ≤ c

instance : ∀ p, Decidable (OpClockOK p)
  | (.update _, _) => isTrue trivial
  | (.upsert data, c) => inferInstanceAs (Decidable (cmpTs data ≤ c))

theorem cmpTs_update (data : Obj) (now : Nat) :
    cmpTs (IDBWrapper.update data now) = now := by
  apply cmpTs_of_updatedAt
  rw [IDBWrapper.update, objGet_cons, if_pos rfl]

theorem cmpTs_created_le {data : Obj} {now : Nat} (h : cmpTs data ≤ now) :
    cmpTs (("createdAt", jsOr (objGet data "createdAt") now) :: data) ≤ now := by
  unfold cmpTs at h ⊢
  rw [objGet_cons, if_neg (by decide), objGet_cons, if_pos rfl]
  rcases hu : objGet data "updatedAt" with _ | t <;>
    rcases hc : objGet data "createdAt" with _ | u <;>
      rw [hu, hc] at h <;> simp [jsOr] at h ⊢ <;> omega

theorem stTs_step_le {st : Option Obj} {p : StoreOp × Nat}
    (h : stTs st ≤ p.2) (hok : OpClockOK p) :
    stTs (storeOpStep st p) ≤ p.2 := by
  rcases p with ⟨op, c⟩
  cases op with
  | update data => simp [storeOpStep, stTs, cmpTs_update]
  | upsert data =>
      rcases st with _ | e
      · simpa [storeOpStep, IDBWrapper.upsert, stTs] using
          cmpTs_created_le (by simpa [OpClockOK] using hok)
      · by_cases hle : cmpTs e ≤ cmpTs data
        · have : cmpTs (("updatedAt", c) :: (data ++ e)) = c := by
            apply cmpTs_of_updatedAt
            rw [objGet_cons, if_pos rfl]
          simp [storeOpStep, IDBWrapper.upsert, if_pos hle, stTs, this]
        · simpa [storeOpStep, IDBWrapper.upsert, if_neg hle, stTs] using h

theorem stTs_step_mono {st : Option Obj} {p : StoreOp × Nat}
    (h : stTs st ≤ p.2) :
    stTs st ≤ stTs (storeOpStep st p) := by
  rcases p with ⟨op, c⟩
  cases op with
  | update data => simpa [storeOpStep, stTs, cmpTs_update] using h
  | upsert data =>
      rcases st with _ | e
      · simp [stTs]
      · by_cases hle : cmpTs e ≤ cmpTs data
        · have hc : cmpTs (("updatedAt", c) :: (data ++ e)) = c := by
            apply cmpTs_of_updatedAt
            rw [objGet_cons, if_pos rfl]
          simp only [storeOpStep, IDBWrapper.upsert, if_pos hle, stTs, hc]
          exact h
        · simp [storeOpStep, IDBWrapper.upsert, if_neg hle, stTs]

theorem execOps_mono_aux :
    ∀ (ops : List (StoreOp × Nat)) (st : Option Obj),
      (∀ p ∈ ops, OpClockOK p) →
      (∀ p ∈ ops, stTs st ≤ p.2) →
      List.Sorted (· ≤ ·) (ops.map (·.2)) →
      stTs st ≤ stTs (execOps st ops) ∧
        ∀ c, stTs st ≤ c → (∀ p ∈ ops, p.2 ≤ c) → stTs (execOps st ops) ≤ c
  | [], _, _, _, _ => ⟨le_refl _, fun _ hc _ => hc⟩
  | p :: ps, st, hok, hst, hsorted => by
      have hp : stTs st ≤ p.2 := hst p (by simp)
      have hbound : stTs (storeOpStep st p) ≤ p.2 := stTs_step_le hp (hok p (by simp))
      have hmonostep : stTs st ≤ stTs (storeOpStep st p) := stTs_step_mono hp
      have hsorted' : List.Sorted (· ≤ ·) (ps.map (·.2)) :=
        (List.sorted_cons.mp (by simpa using hsorted)).2
      have hlater : ∀ q ∈ ps, p.2 ≤ q.2 := by
        intro q hq
        exact (List.sorted_cons.mp (by simpa using hsorted)).1 q.2 (List.mem_map_of_mem _ hq)
      have hst' : ∀ q ∈ ps, stTs (storeOpStep st p) ≤ q.2 :=
        fun q hq => le_trans hbound (hlater q hq)
      have hok' : ∀ q ∈ ps, OpClockOK q := fun q hq => hok q (by simp [hq])
      obtain ⟨ih1, ih2⟩ := execOps_mono_aux ps (storeOpStep st p) hok' hst' hsorted'
      constructor
      · exact le_trans hmonostep (by simpa [execOps, List.foldl_cons] using ih1)
      · intro c _ hcall
        have : stTs (execOps (storeOpStep st p) ps) ≤ c :=
          ih2 c (le_trans hbound (hcall p (by simp))) (fun q hq => hcall q (by simp [hq]))
        simpa [execOps, List.foldl_cons] using this

/-- C9: the claim fails as stated — with a merely monotone clock, an upsert
can first store a record whose incoming `updatedAt` lies ahead of the local
clock, after which `update` stamps the (smaller) current time, decreasing
the stored timestamp.  Amended, proved here: under the additional
hypothesis that every upsert's incoming comparison timestamp is at most the
clock time of that operation (and the clock times are monotone
non-decreasing and no earlier than the initial record's timestamp), the
stored comparison timestamp (`updatedAt`, falling back to `createdAt`)
never decreases across any sequence of `update`/`upsert` operations. -/
theorem C9_stored_ts_monotone (st₀ : Option Obj) (ops pre suf : List (StoreOp × Nat))
    (hsplit : ops = pre ++ suf)
    (hok : ∀ p ∈ ops, OpClockOK p)
    (hsorted : List.Sorted (· ≤ ·) (ops.map (·.2)))
    (h₀ : ∀ p ∈ ops, stTs st₀ ≤ p.2) :
    stTs (execOps st₀ pre) ≤ stTs (execOps st₀ ops) := by
  subst hsplit
  have hmap : (pre ++ suf).map (·.2) = pre.map (·.2) ++ suf.map (·.2) := List.map_append _ _ _
  rw [hmap] at hsorted
  have hpw : List.Pairwise (· ≤ ·) (pre.map (·.2) ++ suf.map (·.2)) := hsorted
  obtain ⟨hpwPre, hpwSuf, hcross⟩ := List.pairwise_append.mp hpw
  have hsortedPre : List.Sorted (· ≤ ·) (pre.map (·.2)) := hpwPre
  have hsortedSuf : List.Sorted (· ≤ ·) (suf.map (·.2)) := hpwSuf
  have hokPre : ∀ p ∈ pre, OpClockOK p := fun p hp => hok p (by simp [hp])
  have hokSuf : ∀ p ∈ suf, OpClockOK p := fun p hp => hok p (by simp [hp])
  have h₀Pre : ∀ p ∈ pre, stTs st₀ ≤ p.2 := fun p hp => h₀ p (by simp [hp])
  obtain ⟨_, hPreBound⟩ := execOps_mono_aux pre st₀ hokPre h₀Pre hsortedPre
  have hstSuf : ∀ q ∈ suf, stTs (execOps st₀ pre) ≤ q.2 := by
    intro q hq
    refine hPreBound q.2 (h₀ q (by simp [hq])) ?_
    intro p hp
    exact hcross p.2 (List.mem_map_of_mem _ hp) q.2 (List.mem_map_of_mem _ hq)
  obtain ⟨hmono, _⟩ := execOps_mono_aux suf (execOps st₀ pre) hokSuf hstSuf hsortedSuf
  have hsplitExec : execOps st₀ (pre ++ suf) = execOps (execOps st₀ pre) suf := by
    simp [execOps, List.foldl_append]
  rw [hsplitExec]
  exact hmono

/-- Witness for `C9_stored_ts_monotone`: an upsert at clock 5 (incoming
timestamp 3) followed by an update at clock 7; the stored timestamp after
the first operation (3) does not exceed the final one (7). -/
theorem C9_stored_ts_monotone_witness :
    stTs (execOps none [((StoreOp.upsert [("id", 1), ("updatedAt", 3)]), 5)]) ≤
      stTs (execOps none
        [((StoreOp.upsert [("id", 1), ("updatedAt", 3)]), 5),
         ((StoreOp.update [("id", 1), ("y", 2)]), 7)]) := by
  exact C9_stored_ts_monotone none
    [((StoreOp.upsert [("id", 1), ("updatedAt", 3)]), 5),
     ((StoreOp.update [("id", 1), ("y", 2)]), 7)]
    [((StoreOp.upsert [("id", 1), ("updatedAt", 3)]), 5)]
    [((StoreOp.update [("id", 1), ("y", 2)]), 7)]
    (by decide) (by decide) (by decide) (by decide)

/-- C9, counterexample to the claim as stated: the clock is monotone
(5 then 6), yet the stored `updatedAt` decreases from 1000 to 6 — the
upsert at clock 5 stores a record carrying incoming `updatedAt = 1000`,
and the subsequent `update` at clock 6 stamps the current time over it. -/
theorem C9_counterexample :
    (5 : Nat) ≤ 6 ∧
    stTs (execOps none [((StoreOp.upsert [("updatedAt", 1000)]), 5)]) = 1000 ∧
    stTs (execOps none
      [((StoreOp.upsert [("updatedAt", 1000)]), 5),
       ((StoreOp.update [("x", 1)]), 6)]) = 6 := by
  decide

/-! ## The sync queue and the sync manager -/

/-- One entry of the `syncQueue` store, as created by
`IDBWrapper.addToSyncQueue`: a fresh `id`, the caller's
`operation`/`entityType`/`entityId`/`data`/`userId`, the enqueue timestamp
`createdAt`, and `retries` starting at 0. -/
structure QueueItem where
  id : Nat
  operation : String
  entityType : String
  entityId : Nat
  data : Option Obj
  userId : Option Nat
  createdAt : Nat
  retries : Nat
  deriving DecidableEq, Repr

namespace IDBWrapper

/-- The `IDBWrapper.getSyncQueue()`: all queue items sorted by `createdAt`
ascending (`items.sort((a, b) => new Date(a.createdAt) - new Date(b.createdAt))`;
a stable sort, oldest first — embedded as a stable insertion sort, which
agrees with every stable sort on the same key). -/
def getSyncQueue (queue : List QueueItem) : List QueueItem :=
  queue.insertionSort (fun a b => a.createdAt ≤ b.createdAt)

/-- The `IDBWrapper.removeSyncQueueItem(id)`: delete by key; idempotent. -/
def removeSyncQueueItem (queue : List QueueItem) (id : Nat) : List QueueItem :=
  queue.filter (fun it => it.id ≠ id)

/-- The `IDBWrapper.updateSyncQueueItem(id, { retries })`: read the stored item
and put back the merge `{ ...item, retries }`; no-op when the id is absent. -/
def updateSyncQueueItem (queue : List QueueItem) (id retries : Nat) : List QueueItem :=
  queue.map (fun it => if it.id = id then { it with retries := retries } else it)

/-- The `IDBWrapper.addToSyncQueue(operation)`: store
`{ id: crypto.randomUUID(), ...operation, createdAt: now, retries: 0 }`.
The fresh UUID is passed in as `newId`. -/
def addToSyncQueue (queue : List QueueItem) (operation : String) (entityType : String)
    (entityId : Nat) (data : Option Obj) (userId : Option Nat) (newId now : Nat) :
    List QueueItem :=
  queue ++ [⟨newId, operation, entityType, entityId, data, userId, now, 0⟩]

end IDBWrapper

/-- Events emitted on the event bus by the sync manager.  Both
`completedCounts` and `completedFull` stand for the `SYNC_COMPLETED` event
name with the two payload shapes the code uses (`processQueue` emits
`{ successCount, errorCount }`, `syncAll` emits `{ full: true }`); likewise
`errorItem` and `errorCause` both stand for `SYNC_ERROR` (`processQueue`
emits `{ item, error }`, `syncAll` emits `{ error }`).  `dataEvent` stands
for the entity created/updated events dispatched by `emitDataEvent`, and
`deleteEvent` for the entity deleted events of `emitDeleteEvent`. -/
inductive SyncEvent where
  | started
  | completedCounts (successCount errorCount : Nat)
  | completedFull
  | errorItem (item : QueueItem) (error : Nat)
  | errorCause (error : Nat)
  | dataEvent (entityType : String) (action : UpsertAction) (data : Obj)
  | deleteEvent (entityType : String) (id : Nat)
  deriving DecidableEq, Repr

/-- Network requests made against the remote backend: one remote apply of a
queue item (`processSyncItem`), one pull query for live rows, one pull
query for tombstoned rows. -/
inductive RemoteCall where
  | applyItem (item : QueueItem)
  | pullQuery (entityType : String)
  | pullDeletedQuery (entityType : String)
  deriving DecidableEq, Repr

/-- Oracles for everything outside the sync engine: session state
(`authService.isAuthenticated()`), connectivity (`navigator.onLine`), the
outcome of one remote apply of a queue item (`processSyncItem`'s Supabase
upsert / soft-delete, `.ok` on success, `.error e` when it throws `e`), the
rows answered by one pull query (already in local field naming — the
`toCamelCase` translation is embedded separately below on code-unit
strings), the ids answered by the tombstone query (whose JS caller ignores
errors), and the wall clock. -/
structure Env where
  authed : Bool
  online : Bool
  applyResult : QueueItem → Except Nat Unit
  pullResult : String → Except Nat (List Obj)
  pullDeleted : String → List Nat
  now : Nat

/-- Local-store rows: one entry per (collection name, record); records are
keyed by their `id` field. -/
abbrev LocalStore := List (String × Obj)

/-- Look up the record with the given `id` in the named collection
(`db.get(storeName, id)`). -/
def storeGet (store : LocalStore) (sname : String) (id : Option Nat) : Option Obj :=
  (store.find? (fun p => p.1 == sname && objGet p.2 "id" == id)).map (·.2)

/-- The `db.put(storeName, rec)`: replace the row with `rec`'s `id`, or add it.
Collections hold at most one row per id, so the map touches one row. -/
def storePut (store : LocalStore) (sname : String) (rec : Obj) : LocalStore :=
  if store.any (fun p => p.1 == sname && objGet p.2 "id" == objGet rec "id") then
    store.map (fun p =>
      if p.1 == sname && objGet p.2 "id" == objGet rec "id" then (sname, rec) else p)
  else
    store ++ [(sname, rec)]

/-- The `db.delete(storeName, id)`. -/
def storeDelete (store : LocalStore) (sname : String) (id : Nat) : LocalStore :=
  store.filter (fun p => !(p.1 == sname && objGet p.2 "id" == some id))

/-- The `db.upsert(storeName, data)` against the whole store: look up the
existing row by `data.id`, decide by Last-Write-Wins, and put the result
back unless the incoming record was skipped. -/
def dbUpsert (store : LocalStore) (sname : String) (data : Obj) (now : Nat) :
    UpsertResult × LocalStore :=
  let res := IDBWrapper.upsert (storeGet store sname (objGet data "id")) data now
  (res, if res.action = .skipped then store else storePut store sname res.stored)

/-- Mutable state of `SyncManager` together with the local store it
drives: the `isSyncing` single-flight flag, the `syncQueue` collection,
the three entity collections, and the persisted
`giftplanner_lastSync` watermark. -/
structure EngineState where
  isSyncing : Bool
  queue : List QueueItem
  store : LocalStore
  lastSyncTimestamp : Option Nat
  deriving DecidableEq, Repr

namespace SyncManager

def MAX_RETRIES : Nat := 3

/-- The per-entry loop of `SyncManager.processQueue`, iterating over the
sorted snapshot while the stored queue `q` is mutated underneath:

```js
for (const item of queue) {
  try {
    await this.processSyncItem(supabase, item);
    await db.removeSyncQueueItem(item.id);
    successCount++;
  } catch (error) {
    const retries = (item.retries || 0) + 1;
    if (retries >= this.MAX_RETRIES) {
      await db.removeSyncQueueItem(item.id);
      eventBus.emit(AppEvents.SYNC_ERROR, { item, error });
      errorCount++;
    } else {
      await db.updateSyncQueueItem(item.id, { retries });
    }
  }
}
```

Returns the final stored queue, the events emitted, the remote calls made,
and the success/error counters. -/
def processEntries (env : Env) :
    List QueueItem → List QueueItem →
      List QueueItem × List SyncEvent × List RemoteCall × Nat × Nat
  | q, [] => (q, [], [], 0, 0)
  | q, item :: rest =>
      match env.applyResult item with
      | .ok _ =>
          let q' := IDBWrapper.removeSyncQueueItem q item.id
          let (qf, evs, calls, s, e) := processEntries env q' rest
          (qf, evs, .applyItem item :: calls, s + 1, e)
      | .error err =>
          let retries := item.retries + 1
          if MAX_RETRIES ≤ retries then
            let q' := IDBWrapper.removeSyncQueueItem q item.id
            let (qf, evs, calls, s, e) := processEntries env q' rest
            (qf, SyncEvent.errorItem item err :: evs, .applyItem item :: calls, s, e + 1)
          else
            let q' := IDBWrapper.updateSyncQueueItem q item.id retries
            let (qf, evs, calls, s, e) := processEntries env q' rest
            (qf, evs, .applyItem item :: calls, s, e)

/-- The `SyncManager.processQueue()`: no-op when already syncing or not
authenticated; no-op when the queue is empty; otherwise set `isSyncing`,
emit `SYNC_STARTED`, run the per-entry loop over the snapshot sorted by
enqueue time, clear `isSyncing`, and emit `SYNC_COMPLETED` with the
success/error counters. -/
def processQueue (env : Env) (st : EngineState) :
    EngineState × List SyncEvent × List RemoteCall :=
  if st.isSyncing || !env.authed then (st, [], [])
  else
    let queue := IDBWrapper.getSyncQueue st.queue
    if queue.isEmpty then (st, [], [])
    else
      let (q', evs, calls, s, e) := processEntries env st.queue queue
      ({ st with queue := q', isSyncing := false },
        SyncEvent.started :: evs ++ [SyncEvent.completedCounts s e],
        calls)

/-- The per-entry loop of `SyncManager.pushToServer`: apply each snapshot
entry; on success remove it from the stored queue; on failure only log and
continue (`// Продолжаем с другими элементами`) — no retry bookkeeping, no
events. -/
def pushEntries (env : Env) :
    List QueueItem → List QueueItem → List QueueItem × List RemoteCall
  | q, [] => (q, [])
  | q, item :: rest =>
      match env.applyResult item with
      | .ok _ =>
          let q' := IDBWrapper.removeSyncQueueItem q item.id
          let (qf, calls) := pushEntries env q' rest
          (qf, .applyItem item :: calls)
      | .error _ =>
          let (qf, calls) := pushEntries env q rest
          (qf, .applyItem item :: calls)

/-- The `SyncManager.pushToServer()`: early return on an empty queue, else the
best-effort per-entry loop over the sorted snapshot. -/
def pushToServer (env : Env) (st : EngineState) : EngineState × List RemoteCall :=
  let queue := IDBWrapper.getSyncQueue st.queue
  if queue.isEmpty then (st, [])
  else
    let (q', calls) := pushEntries env st.queue queue
    ({ st with queue := q' }, calls)

/-- The per-row loop of `SyncManager.pullFromServer`: upsert each pulled
row into the local collection; when the upsert was not skipped, dispatch
the matching created/updated domain event with the upsert's `data`. -/
def applyRows (sname : String) (now : Nat) :
    LocalStore → List Obj → LocalStore × List SyncEvent
  | store, [] => (store, [])
  | store, row :: rest =>
      let (res, store') := dbUpsert store sname row now
      let (storeF, evs) := applyRows sname now store' rest
      (storeF,
        (if res.action = .skipped then [] else [SyncEvent.dataEvent sname res.action res.data])
          ++ evs)

/-- The `SyncManager.handleDeletedRecords`: for each tombstoned remote id that
still exists locally, hard-delete it locally and dispatch the matching
deleted domain event. -/
def handleDeletedRecords (sname : String) :
    LocalStore → List Nat → LocalStore × List SyncEvent
  | store, [] => (store, [])
  | store, id :: rest =>
      match storeGet store sname (some id) with
      | some _ =>
          let store' := storeDelete store sname id
          let (storeF, evs) := handleDeletedRecords sname store' rest
          (storeF, SyncEvent.deleteEvent sname id :: evs)
      | none => handleDeletedRecords sname store rest

/-- The `SyncManager.pullFromServer(entityType)`: query the non-tombstoned
rows (filtered by the watermark — folded into the `pullResult` oracle);
on error, throw without touching the store; on success, upsert every row
and then process the tombstoned ids. -/
def pullFromServer (env : Env) (st : EngineState) (sname : String) :
    Except Nat Unit × EngineState × List SyncEvent × List RemoteCall :=
  match env.pullResult sname with
  | .error e => (.error e, st, [], [.pullQuery sname])
  | .ok rows =>
      let (store', evs) := applyRows sname env.now st.store rows
      let (store'', evs2) := handleDeletedRecords sname store' (env.pullDeleted sname)
      (.ok (), { st with store := store'' }, evs ++ evs2,
        [.pullQuery sname, .pullDeletedQuery sname])

/-- Run `pullFromServer` over the entity types in order, stopping at the
first error (the JS exception propagating out of `syncAll`'s `try`). -/
def runPulls (env : Env) :
    EngineState → List String →
      EngineState × List SyncEvent × List RemoteCall × Option Nat
  | st, [] => (st, [], [], none)
  | st, sname :: rest =>
      match pullFromServer env st sname with
      | (.error e, st', evs, calls) => (st', evs, calls, some e)
      | (.ok _, st', evs, calls) =>
          let (stF, evsF, callsF, err) := runPulls env st' rest
          (stF, evs ++ evsF, calls ++ callsF, err)

/-- The `SyncManager.syncAll()`: guard (already syncing / unauthenticated /
offline → silent no-op); otherwise set `isSyncing`, emit `SYNC_STARTED`,
push, pull holidays then recipients then gifts; on full success persist the
current time as the new watermark and emit `SYNC_COMPLETED {full: true}`;
on any propagated pull exception emit `SYNC_ERROR` with it and leave the
watermark alone; in both cases clear `isSyncing` (the JS `finally`). -/
def syncAll (env : Env) (st : EngineState) :
    EngineState × List SyncEvent × List RemoteCall :=
  if st.isSyncing || !env.authed || !env.online then (st, [], [])
  else
    let st0 := { st with isSyncing := true }
    let (st1, pushCalls) := pushToServer env st0
    let (st2, pullEvs, pullCalls, err) := runPulls env st1 ["holidays", "recipients", "gifts"]
    match err with
    | some e =>
        ({ st2 with isSyncing := false },
          SyncEvent.started :: pullEvs ++ [SyncEvent.errorCause e],
          pushCalls ++ pullCalls)
    | none =>
        ({ st2 with isSyncing := false, lastSyncTimestamp := some env.now },
          SyncEvent.started :: pullEvs ++ [SyncEvent.completedFull],
          pushCalls ++ pullCalls)

end SyncManager

theorem getSyncQueue_singleton (it : QueueItem) :
    IDBWrapper.getSyncQueue [it] = [it] := rfl

/-- One `processQueue` pass over a single-entry queue whose remote apply
fails while `retries + 1` is still below the maximum: the entry stays with
its retry count bumped, no error event, counts (0, 0). -/
theorem processQueue_single_fail_low {env : Env} {st : EngineState} {it : QueueItem} {e : Nat}
    (hq : st.queue = [it]) (hsync : st.isSyncing = false) (hauth : env.authed = true)
    (happly : env.applyResult it = .error e) (hlow : it.retries + 1 < 3) :
    SyncManager.processQueue env st =
      ({ st with queue := [{ it with retries := it.retries + 1 }], isSyncing := false },
        [SyncEvent.started, SyncEvent.completedCounts 0 0],
        [RemoteCall.applyItem it]) := by
  have hnot : ¬ (SyncManager.MAX_RETRIES ≤ it.retries + 1) := by
    rw [SyncManager.MAX_RETRIES]; omega
  simp [SyncManager.processQueue, SyncManager.processEntries, hq, hsync, hauth, happly,
    getSyncQueue_singleton, hnot, IDBWrapper.updateSyncQueueItem]

/-- One `processQueue` pass over a single-entry queue whose remote apply
fails once `retries + 1` reaches the maximum: the entry is dropped, a
`SYNC_ERROR` event carrying it is emitted, counts (0, 1). -/
theorem processQueue_single_fail_drop {env : Env} {st : EngineState} {it : QueueItem} {e : Nat}
    (hq : st.queue = [it]) (hsync : st.isSyncing = false) (hauth : env.authed = true)
    (happly : env.applyResult it = .error e) (hhigh : 3 ≤ it.retries + 1) :
    SyncManager.processQueue env st =
      ({ st with queue := [], isSyncing := false },
        [SyncEvent.started, SyncEvent.errorItem it e, SyncEvent.completedCounts 0 1],
        [RemoteCall.applyItem it]) := by
  have hle : SyncManager.MAX_RETRIES ≤ it.retries + 1 := by
    rw [SyncManager.MAX_RETRIES]; omega
  simp [SyncManager.processQueue, SyncManager.processEntries, hq, hsync, hauth, happly,
    getSyncQueue_singleton, hle, IDBWrapper.removeSyncQueueItem]

/-- A `processQueue` pass over an empty queue returns before emitting
anything or calling the network. -/
theorem processQueue_empty {env : Env} {st : EngineState} (hq : st.queue = []) :
    SyncManager.processQueue env st = (st, [], []) := by
  simp [SyncManager.processQueue, hq, IDBWrapper.getSyncQueue]

/-- Number of remote-apply attempts aimed at the queue-entry id `i` in a
list of remote calls. -/
def attemptsOn (i : Nat) (calls : List RemoteCall) : Nat :=
  calls.countP (fun c => match c with | .applyItem it => it.id == i | _ => false)

theorem attemptsOn_cons_apply_ne {y : QueueItem} {i : Nat} (h : y.id ≠ i)
    (calls : List RemoteCall) :
    attemptsOn i (.applyItem y :: calls) = attemptsOn i calls := by
  simp [attemptsOn, List.countP_cons, h]

theorem attemptsOn_cons_apply_self {y : QueueItem} {i : Nat} (h : y.id = i)
    (calls : List RemoteCall) :
    attemptsOn i (.applyItem y :: calls) = attemptsOn i calls + 1 := by
  simp [attemptsOn, List.countP_cons, h]

theorem attemptsOn_map_zero {i : Nat} {snap : List QueueItem}
    (h : ∀ y ∈ snap, y.id ≠ i) :
    attemptsOn i (snap.map RemoteCall.applyItem) = 0 := by
  induction snap with
  | nil => rfl
  | cons y ys ih =>
      rw [List.map_cons, attemptsOn_cons_apply_ne (h y (by simp))]
      exact ih (fun z hz => h z (by simp [hz]))

theorem filter_id_remove {q : List QueueItem} {j i : Nat} (hne : j ≠ i) :
    (IDBWrapper.removeSyncQueueItem q j).filter (fun x => x.id == i) =
      q.filter (fun x => x.id == i) := by
  rw [IDBWrapper.removeSyncQueueItem, List.filter_filter]
  apply List.filter_congr
  intro a _
  by_cases hai : a.id = i
  · simp [hai, Ne.symm hne]
  · simp [hai]

theorem remove_self_filter (q : List QueueItem) (j : Nat) :
    (IDBWrapper.removeSyncQueueItem q j).filter (fun x => x.id == j) = [] := by
  rw [IDBWrapper.removeSyncQueueItem, List.filter_filter]
  rw [List.filter_eq_nil_iff]
  intro a _
  by_cases hai : a.id = j <;> simp [hai]

theorem filter_id_update {q : List QueueItem} {j r i : Nat} (hne : j ≠ i) :
    (IDBWrapper.updateSyncQueueItem q j r).filter (fun x => x.id == i) =
      q.filter (fun x => x.id == i) := by
  rw [IDBWrapper.updateSyncQueueItem]
  induction q with
  | nil => rfl
  | cons x xs ih =>
      by_cases hx : x.id = j
      · have h2 : x.id ≠ i := by rw [hx]; exact hne
        simp only [List.map_cons, if_pos hx, List.filter_cons]
        simp [h2, ih]
      · simp only [List.map_cons, if_neg hx, List.filter_cons]
        by_cases hai : x.id = i <;> simp [hai, ih]

theorem update_self_filter (q : List QueueItem) (j r : Nat) :
    (IDBWrapper.updateSyncQueueItem q j r).filter (fun x => x.id == j) =
      (q.filter (fun x => x.id == j)).map (fun y => { y with retries := r }) := by
  rw [IDBWrapper.updateSyncQueueItem]
  induction q with
  | nil => rfl
  | cons x xs ih =>
      by_cases hx : x.id = j
      · simp only [List.map_cons, if_pos hx, List.filter_cons]
        simp [hx, ih]
      · simp only [List.map_cons, if_neg hx, List.filter_cons]
        simp [hx, ih]

/-- Entries of the snapshot with ids other than `i` neither change which
queue rows carry id `i` nor emit `SYNC_ERROR` events carrying an id-`i`
item. -/
theorem processEntries_untracked (env : Env) (i : Nat) :
    ∀ (snap q : List QueueItem), (∀ y ∈ snap, y.id ≠ i) →
      (SyncManager.processEntries env q snap).1.filter (fun x => x.id == i) =
        q.filter (fun x => x.id == i) ∧
      (∀ x e, x.id = i →
        SyncEvent.errorItem x e ∉ (SyncManager.processEntries env q snap).2.1)
  | [], q, _ => ⟨rfl, by intro x e _; simp [SyncManager.processEntries]⟩
  | y :: rest, q, hids => by
      have hy : y.id ≠ i := hids y (by simp)
      have hrest : ∀ z ∈ rest, z.id ≠ i := fun z hz => hids z (by simp [hz])
      rcases h : env.applyResult y with e' | u
      · by_cases hm : SyncManager.MAX_RETRIES ≤ y.retries + 1
        · have ih := processEntries_untracked env i rest
            (IDBWrapper.removeSyncQueueItem q y.id) hrest
          constructor
          · show (SyncManager.processEntries env q (y :: rest)).1.filter _ = _
            simp only [SyncManager.processEntries, h, if_pos hm]
            show (SyncManager.processEntries env
              (IDBWrapper.removeSyncQueueItem q y.id) rest).1.filter _ = _
            rw [ih.1, filter_id_remove hy]
          · intro x e hx hmem
            simp only [SyncManager.processEntries, h, if_pos hm] at hmem
            have hmem' : SyncEvent.errorItem x e ∈ SyncEvent.errorItem y e' ::
                (SyncManager.processEntries env
                  (IDBWrapper.removeSyncQueueItem q y.id) rest).2.1 := hmem
            rcases List.mem_cons.mp hmem' with heq | hin
            · have : x = y := by injection heq
              exact hy (this ▸ hx)
            · exact ih.2 x e hx hin
        · have ih := processEntries_untracked env i rest
            (IDBWrapper.updateSyncQueueItem q y.id (y.retries + 1)) hrest
          constructor
          · show (SyncManager.processEntries env q (y :: rest)).1.filter _ = _
            simp only [SyncManager.processEntries, h, if_neg hm]
            show (SyncManager.processEntries env
              (IDBWrapper.updateSyncQueueItem q y.id (y.retries + 1)) rest).1.filter _ = _
            rw [ih.1, filter_id_update hy]
          · intro x e hx hmem
            simp only [SyncManager.processEntries, h, if_neg hm] at hmem
            have hmem' : SyncEvent.errorItem x e ∈ (SyncManager.processEntries env
                (IDBWrapper.updateSyncQueueItem q y.id (y.retries + 1)) rest).2.1 := hmem
            exact ih.2 x e hx hmem'
      · have ih := processEntries_untracked env i rest
          (IDBWrapper.removeSyncQueueItem q y.id) hrest
        constructor
        · show (SyncManager.processEntries env q (y :: rest)).1.filter _ = _
          simp only [SyncManager.processEntries, h]
          show (SyncManager.processEntries env
            (IDBWrapper.removeSyncQueueItem q y.id) rest).1.filter _ = _
          rw [ih.1, filter_id_remove hy]
        · intro x e hx hmem
          simp only [SyncManager.processEntries, h] at hmem
          have hmem' : SyncEvent.errorItem x e ∈ (SyncManager.processEntries env
              (IDBWrapper.removeSyncQueueItem q y.id) rest).2.1 := hmem
          exact ih.2 x e hx hmem'

theorem processEntries_calls (env : Env) :
    ∀ (snap q : List QueueItem),
      (SyncManager.processEntries env q snap).2.2.1 = snap.map RemoteCall.applyItem
  | [], _ => rfl
  | item :: rest, q => by
      rcases h : env.applyResult item with e | u
      · by_cases hm : SyncManager.MAX_RETRIES ≤ item.retries + 1
        · show (SyncManager.processEntries env q (item :: rest)).2.2.1 = _
          simp only [SyncManager.processEntries, h, if_pos hm]
          show RemoteCall.applyItem item ::
            (SyncManager.processEntries env _ rest).2.2.1 = _
          rw [processEntries_calls env rest]
          rfl
        · show (SyncManager.processEntries env q (item :: rest)).2.2.1 = _
          simp only [SyncManager.processEntries, h, if_neg hm]
          show RemoteCall.applyItem item ::
            (SyncManager.processEntries env _ rest).2.2.1 = _
          rw [processEntries_calls env rest]
          rfl
      · show (SyncManager.processEntries env q (item :: rest)).2.2.1 = _
        simp only [SyncManager.processEntries, h]
        show RemoteCall.applyItem item ::
          (SyncManager.processEntries env _ rest).2.2.1 = _
        rw [processEntries_calls env rest]
        rfl

/-- Walking the snapshot `pre ++ x :: post`, where only `x` carries its id
and its remote apply fails with `e`: `x` is attempted exactly once; below
the retry cap it survives with `retries` bumped and no `SYNC_ERROR` for its
id is emitted; at the cap it is dropped and `SYNC_ERROR` carrying it is
emitted. -/
theorem processEntries_tracked (env : Env) (x : QueueItem) (e : Nat)
    (happly : env.applyResult x = .error e) :
    ∀ (pre post q : List QueueItem),
      (∀ y ∈ pre, y.id ≠ x.id) → (∀ y ∈ post, y.id ≠ x.id) →
      q.filter (fun y => y.id == x.id) = [x] →
      attemptsOn x.id (SyncManager.processEntries env q (pre ++ x :: post)).2.2.1 = 1 ∧
      (x.retries + 1 < 3 →
        (SyncManager.processEntries env q (pre ++ x :: post)).1.filter
            (fun y => y.id == x.id) = [{ x with retries := x.retries + 1 }] ∧
        (∀ x' e', x'.id = x.id → SyncEvent.errorItem x' e'
          ∉ (SyncManager.processEntries env q (pre ++ x :: post)).2.1)) ∧
      (3 ≤ x.retries + 1 →
        (SyncManager.processEntries env q (pre ++ x :: post)).1.filter
            (fun y => y.id == x.id) = [] ∧
        SyncEvent.errorItem x e ∈ (SyncManager.processEntries env q (pre ++ x :: post)).2.1)
  | [], post, q, _, hpost, hq => by
      rw [List.nil_append]
      by_cases hm : SyncManager.MAX_RETRIES ≤ x.retries + 1
      · have hu := processEntries_untracked env x.id post
          (IDBWrapper.removeSyncQueueItem q x.id) hpost
        refine ⟨?_, ?_, ?_⟩
        · show attemptsOn x.id (SyncManager.processEntries env q (x :: post)).2.2.1 = 1
          simp only [SyncManager.processEntries, happly, if_pos hm]
          show attemptsOn x.id (RemoteCall.applyItem x :: (SyncManager.processEntries env
            (IDBWrapper.removeSyncQueueItem q x.id) post).2.2.1) = 1
          rw [attemptsOn_cons_apply_self rfl, processEntries_calls,
            attemptsOn_map_zero hpost]
        · intro hlow
          exact absurd hm (by rw [SyncManager.MAX_RETRIES]; omega)
        · intro _
          constructor
          · show (SyncManager.processEntries env q (x :: post)).1.filter _ = _
            simp only [SyncManager.processEntries, happly, if_pos hm]
            show (SyncManager.processEntries env
              (IDBWrapper.removeSyncQueueItem q x.id) post).1.filter _ = _
            rw [hu.1, remove_self_filter]
          · show SyncEvent.errorItem x e ∈
              (SyncManager.processEntries env q (x :: post)).2.1
            simp only [SyncManager.processEntries, happly, if_pos hm]
            show SyncEvent.errorItem x e ∈ SyncEvent.errorItem x e ::
              (SyncManager.processEntries env
                (IDBWrapper.removeSyncQueueItem q x.id) post).2.1
            exact List.mem_cons_self _ _
      · have hu := processEntries_untracked env x.id post
          (IDBWrapper.updateSyncQueueItem q x.id (x.retries + 1)) hpost
        refine ⟨?_, ?_, ?_⟩
        · show attemptsOn x.id (SyncManager.processEntries env q (x :: post)).2.2.1 = 1
          simp only [SyncManager.processEntries, happly, if_neg hm]
          show attemptsOn x.id (RemoteCall.applyItem x :: (SyncManager.processEntries env
            (IDBWrapper.updateSyncQueueItem q x.id (x.retries + 1)) post).2.2.1) = 1
          rw [attemptsOn_cons_apply_self rfl, processEntries_calls,
            attemptsOn_map_zero hpost]
        · intro _
          constructor
          · show (SyncManager.processEntries env q (x :: post)).1.filter _ = _
            simp only [SyncManager.processEntries, happly, if_neg hm]
            show (SyncManager.processEntries env
              (IDBWrapper.updateSyncQueueItem q x.id (x.retries + 1)) post).1.filter _ = _
            rw [hu.1, update_self_filter, hq]
            rfl
          · intro x' e' hx' hmem
            simp only [SyncManager.processEntries, happly, if_neg hm] at hmem
            have hmem' : SyncEvent.errorItem x' e' ∈ (SyncManager.processEntries env
                (IDBWrapper.updateSyncQueueItem q x.id (x.retries + 1)) post).2.1 := hmem
            exact hu.2 x' e' hx' hmem'
        · intro hhigh
          exact absurd hhigh (by rw [SyncManager.MAX_RETRIES] at hm; omega)
  | y :: pre, post, q, hpre, hpost, hq => by
      have hy : y.id ≠ x.id := hpre y (by simp)
      have hpre' : ∀ z ∈ pre, z.id ≠ x.id := fun z hz => hpre z (by simp [hz])
      rw [List.cons_append]
      rcases h : env.applyResult y with e' | u
      · by_cases hm : SyncManager.MAX_RETRIES ≤ y.retries + 1
        · have ih := processEntries_tracked env x e happly pre post
            (IDBWrapper.removeSyncQueueItem q y.id) hpre' hpost
            (by rw [filter_id_remove hy, hq])
          refine ⟨?_, ?_, ?_⟩
          · show attemptsOn x.id
              (SyncManager.processEntries env q (y :: (pre ++ x :: post))).2.2.1 = 1
            simp only [SyncManager.processEntries, h, if_pos hm]
            show attemptsOn x.id (RemoteCall.applyItem y ::
              (SyncManager.processEntries env (IDBWrapper.removeSyncQueueItem q y.id)
                (pre ++ x :: post)).2.2.1) = 1
            rw [attemptsOn_cons_apply_ne hy]
            exact ih.1
          · intro hlow
            constructor
            · show (SyncManager.processEntries env q (y :: (pre ++ x :: post))).1.filter _ = _
              simp only [SyncManager.processEntries, h, if_pos hm]
              show (SyncManager.processEntries env (IDBWrapper.removeSyncQueueItem q y.id)
                (pre ++ x :: post)).1.filter _ = _
              exact (ih.2.1 hlow).1
            · intro x' e'' hx' hmem
              simp only [SyncManager.processEntries, h, if_pos hm] at hmem
              have hmem' : SyncEvent.errorItem x' e'' ∈ SyncEvent.errorItem y e' ::
                  (SyncManager.processEntries env (IDBWrapper.removeSyncQueueItem q y.id)
                    (pre ++ x :: post)).2.1 := hmem
              rcases List.mem_cons.mp hmem' with heq | hin
              · have : x' = y := by injection heq
                exact hy (this ▸ hx')
              · exact (ih.2.1 hlow).2 x' e'' hx' hin
          · intro hhigh
            constructor
            · show (SyncManager.processEntries env q (y :: (pre ++ x :: post))).1.filter _ = _
              simp only [SyncManager.processEntries, h, if_pos hm]
              show (SyncManager.processEntries env (IDBWrapper.removeSyncQueueItem q y.id)
                (pre ++ x :: post)).1.filter _ = _
              exact (ih.2.2 hhigh).1
            · show SyncEvent.errorItem x e ∈
                (SyncManager.processEntries env q (y :: (pre ++ x :: post))).2.1
              simp only [SyncManager.processEntries, h, if_pos hm]
              show SyncEvent.errorItem x e ∈ SyncEvent.errorItem y e' ::
                (SyncManager.processEntries env (IDBWrapper.removeSyncQueueItem q y.id)
                  (pre ++ x :: post)).2.1
              exact List.mem_cons_of_mem _ ((ih.2.2 hhigh).2)
        · have ih := processEntries_tracked env x e happly pre post
            (IDBWrapper.updateSyncQueueItem q y.id (y.retries + 1)) hpre' hpost
            (by rw [filter_id_update hy, hq])
          refine ⟨?_, ?_, ?_⟩
          · show attemptsOn x.id
              (SyncManager.processEntries env q (y :: (pre ++ x :: post))).2.2.1 = 1
            simp only [SyncManager.processEntries, h, if_neg hm]
            show attemptsOn x.id (RemoteCall.applyItem y ::
              (SyncManager.processEntries env
                (IDBWrapper.updateSyncQueueItem q y.id (y.retries + 1))
                (pre ++ x :: post)).2.2.1) = 1
            rw [attemptsOn_cons_apply_ne hy]
            exact ih.1
          · intro hlow
            constructor
            · show (SyncManager.processEntries env q (y :: (pre ++ x :: post))).1.filter _ = _
              simp only [SyncManager.processEntries, h, if_neg hm]
              show (SyncManager.processEntries env
                (IDBWrapper.updateSyncQueueItem q y.id (y.retries + 1))
                (pre ++ x :: post)).1.filter _ = _
              exact (ih.2.1 hlow).1
            · intro x' e'' hx' hmem
              simp only [SyncManager.processEntries, h, if_neg hm] at hmem
              have hmem' : SyncEvent.errorItem x' e'' ∈
                  (SyncManager.processEntries env
                    (IDBWrapper.updateSyncQueueItem q y.id (y.retries + 1))
                    (pre ++ x :: post)).2.1 := hmem
              exact (ih.2.1 hlow).2 x' e'' hx' hmem'
          · intro hhigh
            constructor
            · show (SyncManager.processEntries env q (y :: (pre ++ x :: post))).1.filter _ = _
              simp only [SyncManager.processEntries, h, if_neg hm]
              show (SyncManager.processEntries env
                (IDBWrapper.updateSyncQueueItem q y.id (y.retries + 1))
                (pre ++ x :: post)).1.filter _ = _
              exact (ih.2.2 hhigh).1
            · show SyncEvent.errorItem x e ∈
                (SyncManager.processEntries env q (y :: (pre ++ x :: post))).2.1
              simp only [SyncManager.processEntries, h, if_neg hm]
              show SyncEvent.errorItem x e ∈
                (SyncManager.processEntries env
                  (IDBWrapper.updateSyncQueueItem q y.id (y.retries + 1))
                  (pre ++ x :: post)).2.1
              exact (ih.2.2 hhigh).2
      · have ih := processEntries_tracked env x e happly pre post
          (IDBWrapper.removeSyncQueueItem q y.id) hpre' hpost
          (by rw [filter_id_remove hy, hq])
        refine ⟨?_, ?_, ?_⟩
        · show attemptsOn x.id
            (SyncManager.processEntries env q (y :: (pre ++ x :: post))).2.2.1 = 1
          simp only [SyncManager.processEntries, h]
          show attemptsOn x.id (RemoteCall.applyItem y ::
            (SyncManager.processEntries env (IDBWrapper.removeSyncQueueItem q y.id)
              (pre ++ x :: post)).2.2.1) = 1
          rw [attemptsOn_cons_apply_ne hy]
          exact ih.1
        · intro hlow
          constructor
          · show (SyncManager.processEntries env q (y :: (pre ++ x :: post))).1.filter _ = _
            simp only [SyncManager.processEntries, h]
            show (SyncManager.processEntries env (IDBWrapper.removeSyncQueueItem q y.id)
              (pre ++ x :: post)).1.filter _ = _
            exact (ih.2.1 hlow).1
          · intro x' e'' hx' hmem
            simp only [SyncManager.processEntries, h] at hmem
            have hmem' : SyncEvent.errorItem x' e'' ∈
                (SyncManager.processEntries env (IDBWrapper.removeSyncQueueItem q y.id)
                  (pre ++ x :: post)).2.1 := hmem
            exact (ih.2.1 hlow).2 x' e'' hx' hmem'
        · intro hhigh
          constructor
          · show (SyncManager.processEntries env q (y :: (pre ++ x :: post))).1.filter _ = _
            simp only [SyncManager.processEntries, h]
            show (SyncManager.processEntries env (IDBWrapper.removeSyncQueueItem q y.id)
              (pre ++ x :: post)).1.filter _ = _
            exact (ih.2.2 hhigh).1
          · show SyncEvent.errorItem x e ∈
              (SyncManager.processEntries env q (y :: (pre ++ x :: post))).2.1
            simp only [SyncManager.processEntries, h]
            show SyncEvent.errorItem x e ∈
              (SyncManager.processEntries env (IDBWrapper.removeSyncQueueItem q y.id)
                (pre ++ x :: post)).2.1
            exact (ih.2.2 hhigh).2

/-- Concrete environment whose remote apply always fails with error 7. -/
def envFail : Env := ⟨true, true, fun _ => .error 7, fun _ => .ok [], fun _ => [], 50⟩

/-- Concrete environment where every remote interaction succeeds and pull
queries return nothing. -/
def envOk : Env := ⟨true, true, fun _ => .ok (), fun _ => .ok [], fun _ => [], 50⟩

/-- Concrete queue item used for instantiating theorems. -/
def itemA : QueueItem := ⟨1, "create", "holidays", 10, some [("id", 10)], some 4, 20, 0⟩

theorem processQueue_isSyncing (env : Env) (st : EngineState)
    (hsync : st.isSyncing = false) :
    (SyncManager.processQueue env st).1.isSyncing = false := by
  rw [SyncManager.processQueue]
  by_cases hg : (st.isSyncing || !env.authed) = true
  · rw [if_pos hg]; exact hsync
  · rw [if_neg hg]
    by_cases hemp : (IDBWrapper.getSyncQueue st.queue).isEmpty
    · rw [if_pos hemp]; exact hsync
    · rw [if_neg hemp]

/-- One `processQueue` pass, tracking the single queue row that carries
id `x.id` (namely `x`), whose remote apply fails with `e`. -/
theorem processQueue_tracked (env : Env) (st : EngineState) (x : QueueItem) (e : Nat)
    (hsync : st.isSyncing = false) (hauth : env.authed = true)
    (hfilter : st.queue.filter (fun y => y.id == x.id) = [x])
    (happly : env.applyResult x = .error e) :
    (SyncManager.processQueue env st).1.isSyncing = false ∧
    attemptsOn x.id (SyncManager.processQueue env st).2.2 = 1 ∧
    (x.retries + 1 < 3 →
      (SyncManager.processQueue env st).1.queue.filter (fun y => y.id == x.id) =
        [{ x with retries := x.retries + 1 }] ∧
      (∀ x' e', x'.id = x.id →
        SyncEvent.errorItem x' e' ∉ (SyncManager.processQueue env st).2.1)) ∧
    (3 ≤ x.retries + 1 →
      (SyncManager.processQueue env st).1.queue.filter (fun y => y.id == x.id) = [] ∧
      SyncEvent.errorItem x e ∈ (SyncManager.processQueue env st).2.1) := by
  have hguard : (st.isSyncing || !env.authed) = false := by simp [hsync, hauth]
  have hperm : List.Perm ((IDBWrapper.getSyncQueue st.queue).filter
      (fun y => y.id == x.id)) (st.queue.filter (fun y => y.id == x.id)) :=
    (List.perm_insertionSort _ st.queue).filter _
  have hsnapf : (IDBWrapper.getSyncQueue st.queue).filter (fun y => y.id == x.id)
      = [x] := by
    rw [hfilter] at hperm
    exact List.perm_singleton.mp hperm
  obtain ⟨pre, post, hsplit, hpre, _, hpost⟩ := List.filter_eq_cons_iff.mp hsnapf
  have hpre' : ∀ y ∈ pre, y.id ≠ x.id := by
    intro y hy h
    exact hpre y hy (by simp [h])
  have hpost' : ∀ y ∈ post, y.id ≠ x.id := by
    intro y hy h
    have h2 := List.filter_eq_nil_iff.mp hpost y hy
    simp [h] at h2
  have htr := processEntries_tracked env x e happly pre post st.queue hpre' hpost' hfilter
  have hemp : (IDBWrapper.getSyncQueue st.queue).isEmpty = false := by
    rw [hsplit]
    cases pre <;> simp
  rw [SyncManager.processQueue, if_neg (by simp [hguard]), if_neg (by simp [hemp])]
  rw [hsplit] at *
  refine ⟨rfl, ?_, ?_, ?_⟩
  · show attemptsOn x.id
      (SyncManager.processEntries env st.queue (pre ++ x :: post)).2.2.1 = 1
    exact htr.1
  · intro hlow
    refine ⟨?_, ?_⟩
    · show (SyncManager.processEntries env st.queue (pre ++ x :: post)).1.filter _ = _
      exact (htr.2.1 hlow).1
    · intro x' e' hx' hmem
      have hmem' : SyncEvent.errorItem x' e' ∈ SyncEvent.started ::
          ((SyncManager.processEntries env st.queue (pre ++ x :: post)).2.1 ++
            [SyncEvent.completedCounts
              (SyncManager.processEntries env st.queue (pre ++ x :: post)).2.2.2.1
              (SyncManager.processEntries env st.queue (pre ++ x :: post)).2.2.2.2]) := hmem
      rcases List.mem_cons.mp hmem' with heq | hin
      · exact absurd heq (by simp)
      · rcases List.mem_append.mp hin with hin' | hin'
        · exact (htr.2.1 hlow).2 x' e' hx' hin'
        · exact absurd (List.mem_singleton.mp hin') (by simp)
  · intro hhigh
    refine ⟨?_, ?_⟩
    · show (SyncManager.processEntries env st.queue (pre ++ x :: post)).1.filter _ = _
      exact (htr.2.2 hhigh).1
    · show SyncEvent.errorItem x e ∈ SyncEvent.started ::
        ((SyncManager.processEntries env st.queue (pre ++ x :: post)).2.1 ++ _)
      exact List.mem_cons_of_mem _ (List.mem_append_left _ ((htr.2.2 hhigh).2))

/-- A pass over a queue holding no row with id `i` never attempts id `i`. -/
theorem processQueue_no_attempts (env : Env) (st : EngineState) (i : Nat)
    (hfilter : st.queue.filter (fun y => y.id == i) = []) :
    attemptsOn i (SyncManager.processQueue env st).2.2 = 0 := by
  have hsnapf : (IDBWrapper.getSyncQueue st.queue).filter (fun y => y.id == i) = [] := by
    have hperm : List.Perm ((IDBWrapper.getSyncQueue st.queue).filter
        (fun y => y.id == i)) (st.queue.filter (fun y => y.id == i)) :=
      (List.perm_insertionSort _ st.queue).filter _
    rw [hfilter] at hperm
    exact hperm.eq_nil
  have hids : ∀ y ∈ IDBWrapper.getSyncQueue st.queue, y.id ≠ i := by
    intro y hy h
    have := List.filter_eq_nil_iff.mp hsnapf y hy
    simp [h] at this
  rw [SyncManager.processQueue]
  by_cases hg : (st.isSyncing || !env.authed) = true
  · rw [if_pos hg]; rfl
  · rw [if_neg hg]
    by_cases hemp : (IDBWrapper.getSyncQueue st.queue).isEmpty
    · rw [if_pos hemp]; rfl
    · rw [if_neg hemp]
      show attemptsOn i
        (SyncManager.processEntries env st.queue (IDBWrapper.getSyncQueue st.queue)).2.2.1 = 0
      rw [processEntries_calls, attemptsOn_map_zero hids]

/-- C2: a queue entry whose remote apply fails on every attempt is
attempted by `processQueue` exactly `MAX_RETRIES = 3` times in total,
whatever else is in the queue: while its retry count stays below 3 each
failing pass attempts it once, leaves it stored with `retries`
incremented, and emits no `SYNC_ERROR` for it; the pass that brings the
count to 3 makes the third and final attempt, removes it from the queue,
and emits a `SYNC_ERROR` event carrying the offending entry; any later
pass over a queue without the entry never attempts its id again. -/
theorem C2_bounded_retries (env : Env) (st : EngineState) (it : QueueItem) (e : Nat)
    (hsync : st.isSyncing = false) (hauth : env.authed = true)
    (hfilter : st.queue.filter (fun y => y.id == it.id) = [it])
    (hr : it.retries = 0)
    (hfail : ∀ r : Nat, env.applyResult { it with retries := r } = .error e) :
    attemptsOn it.id (SyncManager.processQueue env st).2.2 = 1 ∧
    (SyncManager.processQueue env st).1.queue.filter (fun y => y.id == it.id) =
      [{ it with retries := 1 }] ∧
    (∀ x' e', x'.id = it.id →
      SyncEvent.errorItem x' e' ∉ (SyncManager.processQueue env st).2.1) ∧
    attemptsOn it.id
      (SyncManager.processQueue env (SyncManager.processQueue env st).1).2.2 = 1 ∧
    (SyncManager.processQueue env
        (SyncManager.processQueue env st).1).1.queue.filter (fun y => y.id == it.id) =
      [{ it with retries := 2 }] ∧
    (∀ x' e', x'.id = it.id → SyncEvent.errorItem x' e' ∉
      (SyncManager.processQueue env (SyncManager.processQueue env st).1).2.1) ∧
    attemptsOn it.id (SyncManager.processQueue env (SyncManager.processQueue env
      (SyncManager.processQueue env st).1).1).2.2 = 1 ∧
    (SyncManager.processQueue env (SyncManager.processQueue env
        (SyncManager.processQueue env st).1).1).1.queue.filter
      (fun y => y.id == it.id) = [] ∧
    SyncEvent.errorItem { it with retries := 2 } e ∈
      (SyncManager.processQueue env (SyncManager.processQueue env
        (SyncManager.processQueue env st).1).1).2.1 ∧
    (∀ st' : EngineState, st'.queue.filter (fun y => y.id == it.id) = [] →
      attemptsOn it.id (SyncManager.processQueue env st').2.2 = 0) := by
  obtain ⟨iid, iop, ity, ieid, idata, iuid, icr, iret⟩ := it
  simp only at hr
  subst hr
  have h1 := processQueue_tracked env st ⟨iid, iop, ity, ieid, idata, iuid, icr, 0⟩ e
    hsync hauth hfilter (hfail 0)
  obtain ⟨h1q, h1noerr⟩ := h1.2.2.1 (by show 0 + 1 < 3; omega)
  have h2 := processQueue_tracked env (SyncManager.processQueue env st).1
    ⟨iid, iop, ity, ieid, idata, iuid, icr, 1⟩ e h1.1 hauth h1q (hfail 1)
  obtain ⟨h2q, h2noerr⟩ := h2.2.2.1 (by show 1 + 1 < 3; omega)
  have h3 := processQueue_tracked env
    (SyncManager.processQueue env (SyncManager.processQueue env st).1).1
    ⟨iid, iop, ity, ieid, idata, iuid, icr, 2⟩ e h2.1 hauth h2q (hfail 2)
  obtain ⟨h3q, h3err⟩ := h3.2.2.2 (by show 3 ≤ 2 + 1; omega)
  exact ⟨h1.2.1, h1q, h1noerr, h2.2.1, h2q, h2noerr, h3.2.1, h3q, h3err,
    fun st' hs => processQueue_no_attempts env st' _ hs⟩

/-- Witness for `C2_bounded_retries`: a two-entry queue (the failing entry
`itemA` plus an unrelated entry) in the concrete always-failing
environment. -/
theorem C2_bounded_retries_witness :
    attemptsOn itemA.id (SyncManager.processQueue envFail
      ⟨false, [itemA, ⟨6, "update", "gifts", 12, none, some 4, 19, 0⟩], [], none⟩).2.2 = 1 ∧
    (SyncManager.processQueue envFail
        ⟨false, [itemA, ⟨6, "update", "gifts", 12, none, some 4, 19, 0⟩], [],
          none⟩).1.queue.filter (fun y => y.id == itemA.id) =
      [{ itemA with retries := 1 }] ∧
    (∀ x' e', x'.id = itemA.id → SyncEvent.errorItem x' e' ∉
      (SyncManager.processQueue envFail
        ⟨false, [itemA, ⟨6, "update", "gifts", 12, none, some 4, 19, 0⟩], [], none⟩).2.1) ∧
    attemptsOn itemA.id (SyncManager.processQueue envFail (SyncManager.processQueue envFail
      ⟨false, [itemA, ⟨6, "update", "gifts", 12, none, some 4, 19, 0⟩], [], none⟩).1).2.2
      = 1 ∧
    (SyncManager.processQueue envFail (SyncManager.processQueue envFail
        ⟨false, [itemA, ⟨6, "update", "gifts", 12, none, some 4, 19, 0⟩], [],
          none⟩).1).1.queue.filter (fun y => y.id == itemA.id) =
      [{ itemA with retries := 2 }] ∧
    (∀ x' e', x'.id = itemA.id → SyncEvent.errorItem x' e' ∉
      (SyncManager.processQueue envFail (SyncManager.processQueue envFail
        ⟨false, [itemA, ⟨6, "update", "gifts", 12, none, some 4, 19, 0⟩], [],
          none⟩).1).2.1) ∧
    attemptsOn itemA.id (SyncManager.processQueue envFail (SyncManager.processQueue envFail
      (SyncManager.processQueue envFail
        ⟨false, [itemA, ⟨6, "update", "gifts", 12, none, some 4, 19, 0⟩], [],
          none⟩).1).1).2.2 = 1 ∧
    (SyncManager.processQueue envFail (SyncManager.processQueue envFail
        (SyncManager.processQueue envFail
          ⟨false, [itemA, ⟨6, "update", "gifts", 12, none, some 4, 19, 0⟩], [],
            none⟩).1).1).1.queue.filter (fun y => y.id == itemA.id) = [] ∧
    SyncEvent.errorItem { itemA with retries := 2 } 7 ∈
      (SyncManager.processQueue envFail (SyncManager.processQueue envFail
        (SyncManager.processQueue envFail
          ⟨false, [itemA, ⟨6, "update", "gifts", 12, none, some 4, 19, 0⟩], [],
            none⟩).1).1).2.1 ∧
    (∀ st' : EngineState, st'.queue.filter (fun y => y.id == itemA.id) = [] →
      attemptsOn itemA.id (SyncManager.processQueue envFail st').2.2 = 0) :=
  C2_bounded_retries envFail
    ⟨false, [itemA, ⟨6, "update", "gifts", 12, none, some 4, 19, 0⟩], [], none⟩
    itemA 7 rfl rfl (by decide) rfl (fun _ => rfl)

/-- C3: the single-flight / availability guards.  A `syncAll` call while
already syncing, or unauthenticated, or offline, returns immediately with
the state unchanged, no events emitted and no remote calls made; a
`processQueue` call while already syncing or unauthenticated likewise does
nothing.  Since the state is returned unchanged, the rejected trigger
leaves no trace — it is not queued for later. -/
theorem C3_single_flight (env : Env) (st : EngineState) :
    ((st.isSyncing = true ∨ env.authed = false ∨ env.online = false) →
      SyncManager.syncAll env st = (st, [], [])) ∧
    ((st.isSyncing = true ∨ env.authed = false) →
      SyncManager.processQueue env st = (st, [], [])) := by
  constructor
  · intro h
    have hcond : (st.isSyncing || !env.authed || !env.online) = true := by
      rcases h with h | h | h <;> simp [h]
    simp only [SyncManager.syncAll, hcond, if_true]
  · intro h
    have hcond : (st.isSyncing || !env.authed) = true := by
      rcases h with h | h <;> simp [h]
    simp only [SyncManager.processQueue, hcond, if_true]

/-- Witness for `C3_single_flight`: with `isSyncing` set on a nonempty
queue and a healthy environment, both triggers are silent no-ops. -/
theorem C3_single_flight_witness :
    SyncManager.syncAll envOk ⟨true, [itemA], [], none⟩ =
      (⟨true, [itemA], [], none⟩, [], []) ∧
    SyncManager.processQueue envOk ⟨true, [itemA], [], none⟩ =
      (⟨true, [itemA], [], none⟩, [], []) :=
  ⟨(C3_single_flight envOk ⟨true, [itemA], [], none⟩).1 (Or.inl rfl),
   (C3_single_flight envOk ⟨true, [itemA], [], none⟩).2 (Or.inl rfl)⟩

/-! ## Push phase versus queue drain (claim C6) -/

theorem pushEntries_calls (env : Env) :
    ∀ (snap q : List QueueItem),
      (SyncManager.pushEntries env q snap).2 = snap.map RemoteCall.applyItem
  | [], _ => rfl
  | item :: rest, q => by
      rcases h : env.applyResult item with e | u <;>
        simp only [SyncManager.pushEntries, h] <;>
        · show RemoteCall.applyItem item :: (SyncManager.pushEntries env _ rest).2 = _
          rw [pushEntries_calls env rest]
          rfl

theorem processEntries_queue_all_ok (env : Env) :
    ∀ (snap q : List QueueItem),
      (∀ it ∈ snap, env.applyResult it = .ok ()) →
      (SyncManager.processEntries env q snap).1 = (SyncManager.pushEntries env q snap).1
  | [], _, _ => rfl
  | item :: rest, q, hok => by
      have h : env.applyResult item = .ok () := hok item (by simp)
      show (SyncManager.processEntries env q (item :: rest)).1 = _
      simp only [SyncManager.processEntries, SyncManager.pushEntries, h]
      show (SyncManager.processEntries env _ rest).1 = (SyncManager.pushEntries env _ rest).1
      exact processEntries_queue_all_ok env rest _ (fun it hit => hok it (by simp [hit]))

theorem pushEntries_queue_all_fail (env : Env) :
    ∀ (snap q : List QueueItem),
      (∀ it ∈ snap, ∃ e, env.applyResult it = .error e) →
      (SyncManager.pushEntries env q snap).1 = q
  | [], _, _ => rfl
  | item :: rest, q, hfail => by
      obtain ⟨e, h⟩ := hfail item (by simp)
      show (SyncManager.pushEntries env q (item :: rest)).1 = q
      simp only [SyncManager.pushEntries, h]
      show (SyncManager.pushEntries env q rest).1 = q
      exact pushEntries_queue_all_fail env rest q (fun it hit => hfail it (by simp [hit]))

/-- C6, counterexample to the claim as stated: on a one-entry queue whose
entry already holds `retries = 2` and whose remote apply always fails,
`processQueue` applies the retry bookkeeping — it drops the entry and
reports it via `SYNC_ERROR` — while `pushToServer` leaves the entry in the
queue untouched (same `retries`, no event), so the two loops do **not**
apply the same retry bookkeeping. -/
theorem C6_counterexample :
    (SyncManager.pushToServer envFail
        ⟨false, [⟨2, "update", "gifts", 11, some [("id", 11)], some 4, 21, 2⟩], [], none⟩).1.queue
      = [⟨2, "update", "gifts", 11, some [("id", 11)], some 4, 21, 2⟩] ∧
    (SyncManager.processQueue envFail
        ⟨false, [⟨2, "update", "gifts", 11, some [("id", 11)], some 4, 21, 2⟩], [], none⟩).1.queue
      = [] ∧
    (SyncManager.processQueue envFail
        ⟨false, [⟨2, "update", "gifts", 11, some [("id", 11)], some 4, 21, 2⟩], [], none⟩).2.1
      = [SyncEvent.started,
         SyncEvent.errorItem ⟨2, "update", "gifts", 11, some [("id", 11)], some 4, 21, 2⟩ 7,
         SyncEvent.completedCounts 0 1] := by
  decide

/-- C6 (amended): for every queue state, `pushToServer` and `processQueue`
run the same per-entry apply loop — they attempt exactly the same entries
in the same oldest-first order (identical remote-call sequences, so
individual failures abort neither pass), and when every attempt succeeds
they leave identical queues — but they do **not** share retry bookkeeping:
on failures `pushToServer` leaves the whole state untouched (no retry
increment, no drop, no report), as the last conjunct shows for a pass in
which every attempt fails. -/
theorem C6_push_refines_drain (env : Env) (st : EngineState)
    (hsync : st.isSyncing = false) (hauth : env.authed = true) :
    (SyncManager.processQueue env st).2.2 = (SyncManager.pushToServer env st).2 ∧
    ((∀ it ∈ IDBWrapper.getSyncQueue st.queue, env.applyResult it = .ok ()) →
      (SyncManager.processQueue env st).1.queue = (SyncManager.pushToServer env st).1.queue) ∧
    ((∀ it ∈ IDBWrapper.getSyncQueue st.queue, ∃ e, env.applyResult it = .error e) →
      (SyncManager.pushToServer env st).1 = st) := by
  have hguard : (st.isSyncing || !env.authed) = false := by simp [hsync, hauth]
  refine ⟨?_, ?_, ?_⟩
  · by_cases hemp : (IDBWrapper.getSyncQueue st.queue).isEmpty
    · simp only [SyncManager.processQueue, SyncManager.pushToServer, hguard,
        Bool.false_eq_true, if_false, hemp, if_true]
    · simp only [SyncManager.processQueue, SyncManager.pushToServer, hguard,
        Bool.false_eq_true, if_false, hemp, if_false]
      show (SyncManager.processEntries env st.queue (IDBWrapper.getSyncQueue st.queue)).2.2.1
        = (SyncManager.pushEntries env st.queue (IDBWrapper.getSyncQueue st.queue)).2
      rw [processEntries_calls, pushEntries_calls]
  · intro hok
    by_cases hemp : (IDBWrapper.getSyncQueue st.queue).isEmpty
    · simp only [SyncManager.processQueue, SyncManager.pushToServer, hguard,
        Bool.false_eq_true, if_false, hemp, if_true]
    · simp only [SyncManager.processQueue, SyncManager.pushToServer, hguard,
        Bool.false_eq_true, if_false, hemp, if_false]
      show (SyncManager.processEntries env st.queue (IDBWrapper.getSyncQueue st.queue)).1
        = (SyncManager.pushEntries env st.queue (IDBWrapper.getSyncQueue st.queue)).1
      exact processEntries_queue_all_ok env _ _ hok
  · intro hfail
    by_cases hemp : (IDBWrapper.getSyncQueue st.queue).isEmpty
    · simp only [SyncManager.pushToServer, hemp, if_true]
    · simp only [SyncManager.pushToServer, hemp, if_false]
      show ({ st with queue :=
        (SyncManager.pushEntries env st.queue (IDBWrapper.getSyncQueue st.queue)).1 }
          : EngineState) = st
      rw [pushEntries_queue_all_fail env _ _ hfail]

/-- Witness for `C6_push_refines_drain` at a concrete one-entry queue with
an always-failing remote. -/
theorem C6_push_refines_drain_witness :
    (SyncManager.processQueue envFail ⟨false, [itemA], [], none⟩).2.2 =
      (SyncManager.pushToServer envFail ⟨false, [itemA], [], none⟩).2 ∧
    ((∀ it ∈ IDBWrapper.getSyncQueue [itemA], envFail.applyResult it = .ok ()) →
      (SyncManager.processQueue envFail ⟨false, [itemA], [], none⟩).1.queue =
        (SyncManager.pushToServer envFail ⟨false, [itemA], [], none⟩).1.queue) ∧
    ((∀ it ∈ IDBWrapper.getSyncQueue [itemA], ∃ e, envFail.applyResult it = .error e) →
      (SyncManager.pushToServer envFail ⟨false, [itemA], [], none⟩).1 =
        ⟨false, [itemA], [], none⟩) :=
  C6_push_refines_drain envFail ⟨false, [itemA], [], none⟩ rfl rfl

/-! ## Sync-completed signalling (claim C7) -/

theorem runPulls_err_none (env : Env)
    (hok : ∀ sname : String, ∃ rows, env.pullResult sname = .ok rows) :
    ∀ (names : List String) (st : EngineState),
      (SyncManager.runPulls env st names).2.2.2 = none
  | [], _ => rfl
  | sname :: rest, st => by
      obtain ⟨rows, h⟩ := hok sname
      show (SyncManager.runPulls env st (sname :: rest)).2.2.2 = none
      simp only [SyncManager.runPulls, SyncManager.pullFromServer, h]
      show (SyncManager.runPulls env _ rest).2.2.2 = none
      exact runPulls_err_none env hok rest _

/-- C7: the claim fails as stated, in two ways shown by
`C7_counterexample`: a queue-drain pass over an empty queue returns before
emitting anything at all, and a successful full reconciliation emits
`SYNC_COMPLETED` with payload `{ full: true }`, not with counts.  Amended,
proved here: a queue-drain pass that passes the guard and finds a
*nonempty* queue always ends by emitting `SYNC_COMPLETED` carrying the
pass's success and error counters, regardless of individual failures; a
drain over an empty queue emits nothing; and a full reconciliation whose
pulls all succeed ends by emitting `SYNC_COMPLETED` with the full-sync
payload (which carries no counts). -/
theorem C7_sync_completed (env : Env) (st : EngineState)
    (hsync : st.isSyncing = false) (hauth : env.authed = true) :
    ((IDBWrapper.getSyncQueue st.queue).isEmpty = false →
      ∃ s e evs, (SyncManager.processQueue env st).2.1 =
        SyncEvent.started :: evs ++ [SyncEvent.completedCounts s e]) ∧
    ((IDBWrapper.getSyncQueue st.queue).isEmpty = true →
      SyncManager.processQueue env st = (st, [], [])) ∧
    (env.online = true →
      (∀ sname : String, ∃ rows, env.pullResult sname = .ok rows) →
      ∃ evs, (SyncManager.syncAll env st).2.1 =
        SyncEvent.started :: evs ++ [SyncEvent.completedFull]) := by
  have hguard : (st.isSyncing || !env.authed) = false := by simp [hsync, hauth]
  refine ⟨?_, ?_, ?_⟩
  · intro hne
    simp only [SyncManager.processQueue, hguard, Bool.false_eq_true, if_false, hne]
    exact ⟨_, _, _, rfl⟩
  · intro hemp
    simp only [SyncManager.processQueue, hguard, Bool.false_eq_true, if_false, hemp, if_true]
  · intro honline hok
    have hguard3 : (st.isSyncing || !env.authed || !env.online) = false := by
      simp [hsync, hauth, honline]
    have herr := runPulls_err_none env hok ["holidays", "recipients", "gifts"]
      (SyncManager.pushToServer env { st with isSyncing := true }).1
    simp only [SyncManager.syncAll, hguard3, Bool.false_eq_true, if_false]
    rw [show (SyncManager.runPulls env
        (SyncManager.pushToServer env { st with isSyncing := true }).1
        ["holidays", "recipients", "gifts"]) =
      ((SyncManager.runPulls env (SyncManager.pushToServer env { st with isSyncing := true }).1
          ["holidays", "recipients", "gifts"]).1,
        (SyncManager.runPulls env (SyncManager.pushToServer env { st with isSyncing := true }).1
          ["holidays", "recipients", "gifts"]).2.1,
        (SyncManager.runPulls env (SyncManager.pushToServer env { st with isSyncing := true }).1
          ["holidays", "recipients", "gifts"]).2.2.1, none) from by
        rw [← herr]]
    exact ⟨_, rfl⟩

/-- Witness for `C7_sync_completed` on a one-entry queue and an environment
whose remote interactions all succeed. -/
theorem C7_sync_completed_witness :
    ((IDBWrapper.getSyncQueue [itemA]).isEmpty = false →
      ∃ s e evs, (SyncManager.processQueue envOk ⟨false, [itemA], [], none⟩).2.1 =
        SyncEvent.started :: evs ++ [SyncEvent.completedCounts s e]) ∧
    ((IDBWrapper.getSyncQueue [itemA]).isEmpty = true →
      SyncManager.processQueue envOk ⟨false, [itemA], [], none⟩ =
        (⟨false, [itemA], [], none⟩, [], [])) ∧
    (envOk.online = true →
      (∀ sname : String, ∃ rows, envOk.pullResult sname = .ok rows) →
      ∃ evs, (SyncManager.syncAll envOk ⟨false, [itemA], [], none⟩).2.1 =
        SyncEvent.started :: evs ++ [SyncEvent.completedFull]) :=
  C7_sync_completed envOk ⟨false, [itemA], [], none⟩ rfl rfl

/-- C7, counterexample to the claim as stated: a queue-drain pass over an
empty queue emits no `SYNC_COMPLETED` (indeed no event at all), and a
successful full reconciliation emits `SYNC_COMPLETED` with the
`{ full: true }` payload, which carries no success/error counts. -/
theorem C7_counterexample :
    SyncManager.processQueue envOk ⟨false, [], [], none⟩ =
      (⟨false, [], [], none⟩, [], []) ∧
    SyncManager.syncAll envOk ⟨false, [], [], none⟩ =
      (⟨false, [], [], some 50⟩,
        [SyncEvent.started, SyncEvent.completedFull],
        [RemoteCall.pullQuery "holidays", RemoteCall.pullDeletedQuery "holidays",
         RemoteCall.pullQuery "recipients", RemoteCall.pullDeletedQuery "recipients",
         RemoteCall.pullQuery "gifts", RemoteCall.pullDeletedQuery "gifts"]) := by
  decide

/-! ## Error atomicity of full reconciliation (claim C5) -/

/-- Index (into the fixed pull order holidays, recipients, gifts) of the
first entity type whose pull query fails, with the thrown error. -/
def firstPullFailure (env : Env) : Option (Nat × Nat) :=
  match env.pullResult "holidays" with
  | .error e => some (0, e)
  | .ok _ =>
    match env.pullResult "recipients" with
    | .error e => some (1, e)
    | .ok _ =>
      match env.pullResult "gifts" with
      | .error e => some (2, e)
      | .ok _ => none

theorem pushToServer_only_queue (env : Env) (st : EngineState) :
    (SyncManager.pushToServer env st).1.isSyncing = st.isSyncing ∧
    (SyncManager.pushToServer env st).1.store = st.store ∧
    (SyncManager.pushToServer env st).1.lastSyncTimestamp = st.lastSyncTimestamp := by
  by_cases hemp : (IDBWrapper.getSyncQueue st.queue).isEmpty <;>
    simp [SyncManager.pushToServer, hemp]

/-- C5: when any pull of a full reconciliation throws (the push phase
swallows its per-entry errors, so pulls are the propagation point), the
pass emits `SYNC_ERROR` carrying the exception as its final event, the
persisted watermark is left untouched, the local-store mutations of the
pulls that succeeded earlier in the pass are kept (no rollback), and
`isSyncing` is cleared by the `finally` step. -/
theorem C5_syncAll_error_atomicity (env : Env) (st : EngineState) (k e : Nat)
    (hsync : st.isSyncing = false) (hauth : env.authed = true) (honline : env.online = true)
    (hfail : firstPullFailure env = some (k, e)) :
    (SyncManager.syncAll env st).1.lastSyncTimestamp = st.lastSyncTimestamp ∧
    (SyncManager.syncAll env st).1.isSyncing = false ∧
    (∃ evs, (SyncManager.syncAll env st).2.1 =
      SyncEvent.started :: evs ++ [SyncEvent.errorCause e]) ∧
    (SyncManager.syncAll env st).1.store =
      (SyncManager.runPulls env (SyncManager.pushToServer env { st with isSyncing := true }).1
        (["holidays", "recipients", "gifts"].take k)).1.store := by
  have hguard : (st.isSyncing || !env.authed || !env.online) = false := by
    simp [hsync, hauth, honline]
  have hpush := pushToServer_only_queue env { st with isSyncing := true }
  rcases h0 : env.pullResult "holidays" with e0 | r0
  · have hk : k = 0 ∧ e = e0 := by
      rw [firstPullFailure, h0] at hfail
      exact ⟨(Prod.mk.injEq _ _ _ _ ▸ Option.some.inj hfail).1.symm,
        (Prod.mk.injEq _ _ _ _ ▸ Option.some.inj hfail).2.symm⟩
    obtain ⟨hk0, hke⟩ := hk
    subst hk0; subst hke
    simp only [SyncManager.syncAll, hguard, Bool.false_eq_true, if_false,
      SyncManager.runPulls, SyncManager.pullFromServer, h0, List.take_zero]
    exact ⟨hpush.2.2, by trivial, ⟨[], rfl⟩, by trivial⟩
  · rcases h1 : env.pullResult "recipients" with e1 | r1
    · have hk : k = 1 ∧ e = e1 := by
        rw [firstPullFailure, h0, h1] at hfail
        exact ⟨(Prod.mk.injEq _ _ _ _ ▸ Option.some.inj hfail).1.symm,
          (Prod.mk.injEq _ _ _ _ ▸ Option.some.inj hfail).2.symm⟩
      obtain ⟨hk1, hke⟩ := hk
      subst hk1; subst hke
      simp only [SyncManager.syncAll, hguard, Bool.false_eq_true, if_false,
        SyncManager.runPulls, SyncManager.pullFromServer, h0, h1]
      exact ⟨hpush.2.2, by trivial, ⟨_, rfl⟩, by trivial⟩
    · rcases h2 : env.pullResult "gifts" with e2 | r2
      · have hk : k = 2 ∧ e = e2 := by
          rw [firstPullFailure, h0, h1, h2] at hfail
          exact ⟨(Prod.mk.injEq _ _ _ _ ▸ Option.some.inj hfail).1.symm,
            (Prod.mk.injEq _ _ _ _ ▸ Option.some.inj hfail).2.symm⟩
        obtain ⟨hk2, hke⟩ := hk
        subst hk2; subst hke
        simp only [SyncManager.syncAll, hguard, Bool.false_eq_true, if_false,
          SyncManager.runPulls, SyncManager.pullFromServer, h0, h1, h2]
        exact ⟨hpush.2.2, by trivial, ⟨_, rfl⟩, by trivial⟩
      · rw [firstPullFailure, h0, h1, h2] at hfail
        exact absurd hfail (by simp)

/-- Environment for exercising `C5_syncAll_error_atomicity`: the holidays
pull succeeds with one row, the recipients pull throws error 9. -/
def envPullFail : Env :=
  ⟨true, true, fun _ => .ok (),
    fun sname => if sname = "holidays" then .ok [[("id", 10), ("updatedAt", 40)]]
      else .error 9,
    fun _ => [], 50⟩

/-- Witness for `C5_syncAll_error_atomicity`: with `envPullFail` the pass
fails at the recipients pull (k = 1); the watermark stays `none`, the
holidays row applied by the first pull is kept, and `isSyncing` ends
cleared. -/
theorem C5_syncAll_error_atomicity_witness :
    (SyncManager.syncAll envPullFail ⟨false, [], [], none⟩).1.lastSyncTimestamp = none ∧
    (SyncManager.syncAll envPullFail ⟨false, [], [], none⟩).1.isSyncing = false ∧
    (∃ evs, (SyncManager.syncAll envPullFail ⟨false, [], [], none⟩).2.1 =
      SyncEvent.started :: evs ++ [SyncEvent.errorCause 9]) ∧
    (SyncManager.syncAll envPullFail ⟨false, [], [], none⟩).1.store =
      (SyncManager.runPulls envPullFail
        (SyncManager.pushToServer envPullFail ⟨true, [], [], none⟩).1
        (["holidays", "recipients", "gifts"].take 1)).1.store :=
  C5_syncAll_error_atomicity envPullFail ⟨false, [], [], none⟩ 1 9 rfl rfl rfl (by decide)

/-! ## Service layer: cascade deletion and creation (claims C4, C8)

The domain services (`HolidayService`, `RecipientService`, `GiftService`)
are embedded with the fields their CRUD/cascade logic reads; the remaining
payload fields (names, notes, statuses …) are abstracted as `Nat` values
or omitted where no modelled operation reads them.  Authentication is the
`userId : Option Nat` the lazily-imported auth service would report
(`none` = not authenticated).  Queue-entry UUIDs are drawn from a `nextQid`
counter. -/

structure Holiday where
  id : Nat
  name : Nat
  date : Nat
  description : Nat
  budget : Nat
  userId : Option Nat
  createdAt : Nat
  deriving DecidableEq, Repr

structure Recipient where
  id : Nat
  holidayId : Nat
  deriving DecidableEq, Repr

structure Gift where
  id : Nat
  recipientId : Nat
  holidayId : Nat
  deriving DecidableEq, Repr

/-- Caller-supplied payload of `HolidayService.create(data)`; `description`
and `budget` may be absent (`data.description || ''`, `data.budget || 0`). -/
structure HolidayData where
  name : Nat
  date : Nat
  description : Option Nat
  budget : Option Nat

/-- The local collections and sync queue as the service layer sees them. -/
structure SvcState where
  holidays : List Holiday
  recipients : List Recipient
  gifts : List Gift
  queue : List QueueItem
  nextQid : Nat
  deriving DecidableEq, Repr

/-- Domain events emitted by the service layer. -/
inductive DomainEvent where
  | holidayCreated (id : Nat)
  | holidayDeleted (id : Nat)
  | recipientDeleted (id : Nat)
  | giftDeleted (id : Nat)
  deriving DecidableEq, Repr

namespace GiftService

/-- The `GiftService.delete(id)`: hard-delete the gift locally and emit
`GIFT_DELETED` — this service version performs **no** sync-queue
bookkeeping. -/
def delete (st : SvcState) (gid : Nat) : SvcState × List DomainEvent :=
  ({ st with gifts := st.gifts.filter (fun g => g.id ≠ gid) },
    [DomainEvent.giftDeleted gid])

end GiftService

/-- The `for (const gift of gifts) await giftService.delete(gift.id)` loop
of `RecipientService.delete`. -/
def deleteGiftsLoop : SvcState → List Gift → SvcState × List DomainEvent
  | st, [] => (st, [])
  | st, g :: gs =>
      let (st1, evs1) := GiftService.delete st g.id
      let (st2, evs2) := deleteGiftsLoop st1 gs
      (st2, evs1 ++ evs2)

namespace RecipientService

/-- The `RecipientService.delete(id)`: delete every gift of the recipient
(cascade through `GiftService.delete`), delete the recipient, emit
`RECIPIENT_DELETED`, and — when authenticated — enqueue one
`delete recipients` operation. -/
def delete (userId : Option Nat) (st : SvcState) (rid : Nat) (now : Nat) :
    SvcState × List DomainEvent :=
  let (st1, evs1) := deleteGiftsLoop st (st.gifts.filter (fun g => g.recipientId == rid))
  let st2 := { st1 with recipients := st1.recipients.filter (fun r => r.id ≠ rid) }
  let evs2 := evs1 ++ [DomainEvent.recipientDeleted rid]
  if userId.isSome then
    ({ st2 with
        queue := IDBWrapper.addToSyncQueue st2.queue "delete" "recipients" rid none
          userId st2.nextQid now,
        nextQid := st2.nextQid + 1 }, evs2)
  else (st2, evs2)

end RecipientService

/-- The `for (const recipient of recipients) await recipientService.delete(...)`
loop of `HolidayService.delete`. -/
def deleteRecipientsLoop (userId : Option Nat) (now : Nat) :
    SvcState → List Recipient → SvcState × List DomainEvent
  | st, [] => (st, [])
  | st, r :: rs =>
      let (st1, evs1) := RecipientService.delete userId st r.id now
      let (st2, evs2) := deleteRecipientsLoop userId now st1 rs
      (st2, evs1 ++ evs2)

namespace HolidayService

/-- The `HolidayService.delete(id)`: cascade through every recipient of the
holiday (which cascades to their gifts), delete the holiday, emit
`HOLIDAY_DELETED`, and — when authenticated — enqueue one
`delete holidays` operation. -/
def delete (userId : Option Nat) (st : SvcState) (hid : Nat) (now : Nat) :
    SvcState × List DomainEvent :=
  let (st1, evs1) := deleteRecipientsLoop userId now st
    (st.recipients.filter (fun r => r.holidayId == hid))
  let st2 := { st1 with holidays := st1.holidays.filter (fun h => h.id ≠ hid) }
  let evs2 := evs1 ++ [DomainEvent.holidayDeleted hid]
  if userId.isSome then
    ({ st2 with
        queue := IDBWrapper.addToSyncQueue st2.queue "delete" "holidays" hid none
          userId st2.nextQid now,
        nextQid := st2.nextQid + 1 }, evs2)
  else (st2, evs2)

/-- The `HolidayService.create(data)`: build the holiday record with
`userId = auth?.getUserId() || null`, store it (`db.add` stamps the fresh
id and `createdAt`), emit `HOLIDAY_CREATED`, and enqueue a
`create holidays` operation **only when `userId` is non-null**
(`if (userId) { ... queueOperation('create', ...) }`).  The queued
snapshot's `data` is summarised by the new record's id. -/
def create (userId : Option Nat) (st : SvcState) (data : HolidayData)
    (newId now : Nat) : SvcState × List DomainEvent :=
  let holiday : Holiday :=
    ⟨newId, data.name, data.date, jsOr data.description 0, jsOr data.budget 0, userId, now⟩
  let st1 := { st with holidays := st.holidays ++ [holiday] }
  if userId.isSome then
    ({ st1 with
        queue := IDBWrapper.addToSyncQueue st1.queue "create" "holidays" newId
          (some [("id", newId)]) userId st1.nextQid now,
        nextQid := st1.nextQid + 1 }, [DomainEvent.holidayCreated newId])
  else (st1, [DomainEvent.holidayCreated newId])

end HolidayService

theorem deleteGiftsLoop_components :
    ∀ (gs : List Gift) (st : SvcState),
      (deleteGiftsLoop st gs).1.recipients = st.recipients ∧
      (deleteGiftsLoop st gs).1.holidays = st.holidays ∧
      (deleteGiftsLoop st gs).1.queue = st.queue ∧
      (deleteGiftsLoop st gs).1.nextQid = st.nextQid
  | [], _ => ⟨rfl, rfl, rfl, rfl⟩
  | g :: gs, st => by
      have ih := deleteGiftsLoop_components gs
        { st with gifts := st.gifts.filter (fun g' => g'.id ≠ g.id) }
      exact ih

theorem deleteGiftsLoop_gifts_mem :
    ∀ (gs : List Gift) (st : SvcState) (x : Gift),
      x ∈ (deleteGiftsLoop st gs).1.gifts → x ∈ st.gifts ∧ x.id ∉ gs.map Gift.id
  | [], _, _, hx => ⟨hx, by simp⟩
  | g :: gs, st, x, hx => by
      have ih := deleteGiftsLoop_gifts_mem gs
        { st with gifts := st.gifts.filter (fun g' => g'.id ≠ g.id) } x hx
      obtain ⟨hmem, hnotin⟩ := ih
      have hmem' := List.mem_filter.mp hmem
      refine ⟨hmem'.1, ?_⟩
      simp only [List.map_cons, List.mem_cons]
      rintro (h | h)
      · exact absurd h (by simpa using hmem'.2)
      · exact hnotin h

theorem recipientDelete_auth_spec (u : Nat) (st : SvcState) (rid now : Nat) :
    (RecipientService.delete (some u) st rid now).1.holidays = st.holidays ∧
    (RecipientService.delete (some u) st rid now).1.recipients =
      st.recipients.filter (fun r => r.id ≠ rid) ∧
    (∀ x ∈ (RecipientService.delete (some u) st rid now).1.gifts,
      x ∈ st.gifts ∧ x.recipientId ≠ rid) ∧
    (RecipientService.delete (some u) st rid now).1.queue =
      st.queue ++ [⟨st.nextQid, "delete", "recipients", rid, none, some u, now, 0⟩] ∧
    (RecipientService.delete (some u) st rid now).1.nextQid = st.nextQid + 1 := by
  have hcomp := deleteGiftsLoop_components
    (st.gifts.filter (fun g => g.recipientId == rid)) st
  refine ⟨?_, ?_, ?_, ?_, ?_⟩
  · show (deleteGiftsLoop st (st.gifts.filter (fun g => g.recipientId == rid))).1.holidays
      = st.holidays
    exact hcomp.2.1
  · show (deleteGiftsLoop st
      (st.gifts.filter (fun g => g.recipientId == rid))).1.recipients.filter
        (fun r => r.id ≠ rid) = st.recipients.filter (fun r => r.id ≠ rid)
    rw [hcomp.1]
  · intro x hx
    have hx' : x ∈ (deleteGiftsLoop st
        (st.gifts.filter (fun g => g.recipientId == rid))).1.gifts := hx
    obtain ⟨hmem, hnotin⟩ := deleteGiftsLoop_gifts_mem _ st x hx'
    refine ⟨hmem, fun hrec => hnotin ?_⟩
    exact List.mem_map_of_mem Gift.id (List.mem_filter.mpr ⟨hmem, by simp [hrec]⟩)
  · show IDBWrapper.addToSyncQueue
      (deleteGiftsLoop st (st.gifts.filter (fun g => g.recipientId == rid))).1.queue
      "delete" "recipients" rid none (some u)
      (deleteGiftsLoop st (st.gifts.filter (fun g => g.recipientId == rid))).1.nextQid now
      = st.queue ++ [⟨st.nextQid, "delete", "recipients", rid, none, some u, now, 0⟩]
    rw [IDBWrapper.addToSyncQueue, hcomp.2.2.1, hcomp.2.2.2]
  · show (deleteGiftsLoop st
      (st.gifts.filter (fun g => g.recipientId == rid))).1.nextQid + 1 = st.nextQid + 1
    rw [hcomp.2.2.2]

theorem deleteRecipientsLoop_spec (u now : Nat) :
    ∀ (rs : List Recipient) (st : SvcState),
      (deleteRecipientsLoop (some u) now st rs).1.holidays = st.holidays ∧
      (∀ x ∈ (deleteRecipientsLoop (some u) now st rs).1.recipients,
        x ∈ st.recipients ∧ x.id ∉ rs.map Recipient.id) ∧
      (∀ x ∈ (deleteRecipientsLoop (some u) now st rs).1.gifts,
        x ∈ st.gifts ∧ x.recipientId ∉ rs.map Recipient.id) ∧
      (∃ newEntries, (deleteRecipientsLoop (some u) now st rs).1.queue =
          st.queue ++ newEntries ∧
        newEntries.length = rs.length ∧ ∀ q ∈ newEntries, q.operation = "delete")
  | [], st => ⟨rfl, fun x hx => ⟨hx, by simp⟩, fun x hx => ⟨hx, by simp⟩,
      ⟨[], (List.append_nil _).symm, rfl, by simp⟩⟩
  | r :: rs, st => by
      have hstep := recipientDelete_auth_spec u st r.id now
      have ih := deleteRecipientsLoop_spec u now rs
        (RecipientService.delete (some u) st r.id now).1
      refine ⟨?_, ?_, ?_, ?_⟩
      · show (deleteRecipientsLoop (some u) now
          (RecipientService.delete (some u) st r.id now).1 rs).1.holidays = st.holidays
        rw [ih.1, hstep.1]
      · intro x hx
        obtain ⟨hmem, hnotin⟩ := ih.2.1 x hx
        rw [hstep.2.1] at hmem
        have hmem' := List.mem_filter.mp hmem
        refine ⟨hmem'.1, ?_⟩
        simp only [List.map_cons, List.mem_cons]
        rintro (h | h)
        · exact absurd h (by simpa using hmem'.2)
        · exact hnotin h
      · intro x hx
        obtain ⟨hmem, hnotin⟩ := ih.2.2.1 x hx
        obtain ⟨hmem', hne⟩ := hstep.2.2.1 x hmem
        refine ⟨hmem', ?_⟩
        simp only [List.map_cons, List.mem_cons]
        rintro (h | h)
        · exact hne h
        · exact hnotin h
      · obtain ⟨rest, hq, hlen, hops⟩ := ih.2.2.2
        refine ⟨⟨st.nextQid, "delete", "recipients", r.id, none, some u, now, 0⟩ :: rest,
          ?_, by simp [hlen], ?_⟩
        · show (deleteRecipientsLoop (some u) now
            (RecipientService.delete (some u) st r.id now).1 rs).1.queue = _
          rw [hq, hstep.2.2.2.1]
          simp
        · intro q hq'
          rcases List.mem_cons.mp hq' with h | h
          · rw [h]
          · exact hops q h

/-- C4: the cascade is complete on the local store — after
`holidayService.delete(hid)` no holiday, recipient or gift row referencing
`hid` remains (under referential integrity of the starting state: every
gift of the holiday belongs to a recipient of the holiday) — but the claim
miscounts the enqueued operations: `GiftService.delete` performs no
sync-queue bookkeeping, so an authenticated cascade over N recipients and
M gifts enqueues exactly N + 1 delete operations (one per recipient plus
one for the holiday), not N + M + 1. -/
theorem C4_cascade_delete (st : SvcState) (hid u now : Nat)
    (href : ∀ g ∈ st.gifts, g.holidayId = hid →
      ∃ r, r ∈ st.recipients ∧ r.id = g.recipientId ∧ r.holidayId = hid) :
    (∀ h ∈ (HolidayService.delete (some u) st hid now).1.holidays, h.id ≠ hid) ∧
    (∀ rc ∈ (HolidayService.delete (some u) st hid now).1.recipients,
      rc.holidayId ≠ hid) ∧
    (∀ g ∈ (HolidayService.delete (some u) st hid now).1.gifts, g.holidayId ≠ hid) ∧
    (∃ newEntries,
      (HolidayService.delete (some u) st hid now).1.queue = st.queue ++ newEntries ∧
      newEntries.length =
        (st.recipients.filter (fun rc => rc.holidayId == hid)).length + 1 ∧
      ∀ q ∈ newEntries, q.operation = "delete") := by
  have hloop := deleteRecipientsLoop_spec u now
    (st.recipients.filter (fun rc => rc.holidayId == hid)) st
  refine ⟨?_, ?_, ?_, ?_⟩
  · intro h hmem
    have hmem' : h ∈ (deleteRecipientsLoop (some u) now st
        (st.recipients.filter (fun rc => rc.holidayId == hid))).1.holidays.filter
          (fun h' => h'.id ≠ hid) := hmem
    simpa using (List.mem_filter.mp hmem').2
  · intro rc hmem
    have hmem' : rc ∈ (deleteRecipientsLoop (some u) now st
        (st.recipients.filter (fun rc' => rc'.holidayId == hid))).1.recipients := hmem
    obtain ⟨hmemSt, hnotin⟩ := hloop.2.1 rc hmem'
    intro hh
    exact hnotin (List.mem_map_of_mem Recipient.id
      (List.mem_filter.mpr ⟨hmemSt, by simp [hh]⟩))
  · intro g hmem
    have hmem' : g ∈ (deleteRecipientsLoop (some u) now st
        (st.recipients.filter (fun rc' => rc'.holidayId == hid))).1.gifts := hmem
    obtain ⟨hmemSt, hnotin⟩ := hloop.2.2.1 g hmem'
    intro hh
    obtain ⟨r, hr, hrid, hrh⟩ := href g hmemSt hh
    refine hnotin ?_
    rw [← hrid]
    exact List.mem_map_of_mem Recipient.id (List.mem_filter.mpr ⟨hr, by simp [hrh]⟩)
  · obtain ⟨entries, hq, hlen, hops⟩ := hloop.2.2.2
    refine ⟨entries ++ [⟨(deleteRecipientsLoop (some u) now st
        (st.recipients.filter (fun rc => rc.holidayId == hid))).1.nextQid,
        "delete", "holidays", hid, none, some u, now, 0⟩], ?_, ?_, ?_⟩
    · show IDBWrapper.addToSyncQueue (deleteRecipientsLoop (some u) now st
        (st.recipients.filter (fun rc => rc.holidayId == hid))).1.queue
        "delete" "holidays" hid none (some u) _ now = _
      rw [IDBWrapper.addToSyncQueue, hq]
      simp
    · simp [hlen]
    · intro q hq'
      rcases List.mem_append.mp hq' with h | h
      · exact hops q h
      · rw [List.mem_singleton.mp h]

/-- Witness for `C4_cascade_delete`: a holiday with one recipient and one
gift, deleted while authenticated as user 4. -/
theorem C4_cascade_delete_witness :
    (∀ h ∈ (HolidayService.delete (some 4)
        ⟨[⟨1, 0, 0, 0, 0, some 4, 0⟩], [⟨2, 1⟩], [⟨3, 2, 1⟩], [], 100⟩ 1 9).1.holidays,
      h.id ≠ 1) ∧
    (∀ rc ∈ (HolidayService.delete (some 4)
        ⟨[⟨1, 0, 0, 0, 0, some 4, 0⟩], [⟨2, 1⟩], [⟨3, 2, 1⟩], [], 100⟩ 1 9).1.recipients,
      rc.holidayId ≠ 1) ∧
    (∀ g ∈ (HolidayService.delete (some 4)
        ⟨[⟨1, 0, 0, 0, 0, some 4, 0⟩], [⟨2, 1⟩], [⟨3, 2, 1⟩], [], 100⟩ 1 9).1.gifts,
      g.holidayId ≠ 1) ∧
    (∃ newEntries,
      (HolidayService.delete (some 4)
        ⟨[⟨1, 0, 0, 0, 0, some 4, 0⟩], [⟨2, 1⟩], [⟨3, 2, 1⟩], [], 100⟩ 1 9).1.queue =
        [] ++ newEntries ∧
      newEntries.length =
        (([⟨2, 1⟩] : List Recipient).filter (fun rc => rc.holidayId == 1)).length + 1 ∧
      ∀ q ∈ newEntries, q.operation = "delete") :=
  C4_cascade_delete ⟨[⟨1, 0, 0, 0, 0, some 4, 0⟩], [⟨2, 1⟩], [⟨3, 2, 1⟩], [], 100⟩ 1 4 9
    (by decide)

/-- C4, counterexample to the claim as stated: deleting a holiday with
N = 1 recipient and M = 1 gift while authenticated enqueues 2 delete
operations, not N + M + 1 = 3 — the gift's deletion is local only. -/
theorem C4_counterexample :
    (HolidayService.delete (some 4)
      ⟨[⟨1, 0, 0, 0, 0, some 4, 0⟩], [⟨2, 1⟩], [⟨3, 2, 1⟩], [], 100⟩ 1 9).1.queue.length
      = 2 ∧ (2 : Nat) ≠ 1 + 1 + 1 := by
  decide

/-- C8: creating a holiday with no authenticated user stores it locally
with `userId = null`, but — the claim's second half fails —
`HolidayService.create` enqueues **nothing** in that case
(`if (userId) { ... queueOperation('create', ...) }` is skipped), so the
sync queue is left exactly as it was rather than holding one `create`
entry.  (Being offline plays no role: `create` never consults
connectivity on this path.) -/
theorem C8_offline_create (st : SvcState) (data : HolidayData) (newId now : Nat) :
    (∃ h, h ∈ (HolidayService.create none st data newId now).1.holidays ∧
      h.id = newId ∧ h.userId = none) ∧
    (HolidayService.create none st data newId now).1.queue = st.queue :=
  ⟨⟨⟨newId, data.name, data.date, jsOr data.description 0, jsOr data.budget 0, none, now⟩,
    List.mem_append_right _ (by simp), rfl, rfl⟩, rfl⟩

/-- C8, counterexample to the claim as stated: an unauthenticated create
stores the holiday with `userId = none` but leaves the queue empty — it
does not contain one `create` entry for the new holiday. -/
theorem C8_counterexample :
    (HolidayService.create none ⟨[], [], [], [], 0⟩ ⟨1, 2, none, some 1000⟩ 5 3).1.holidays
      = [⟨5, 1, 2, 0, 1000, none, 3⟩] ∧
    (HolidayService.create none ⟨[], [], [], [], 0⟩ ⟨1, 2, none, some 1000⟩ 5 3).1.queue
      = [] := by
  decide

/-! ## Field-name translation (claim C10) -/

/-- A JS string as its list of character codes; the regexes involved are
ASCII-only (`[A-Z]`, `[a-z]`, and `_` = 95). -/
abbrev CodeUnits := List Nat

def isUpperCode (c : Nat) : Bool := 65 ≤ c && c ≤ 90

def isLowerCode (c : Nat) : Bool := 97 ≤ c && c ≤ 122

/-- The `key.replace(/[A-Z]/g, letter => '_' + letter.toLowerCase())`:
every ASCII uppercase letter becomes an underscore followed by its
lowercase form (`toLowerCase` adds 32). -/
def snakeKey : CodeUnits → CodeUnits
  | [] => []
  | c :: cs => if isUpperCode c then 95 :: (c + 32) :: snakeKey cs else c :: snakeKey cs

/-- The `key.replace(/_([a-z])/g, (_, letter) => letter.toUpperCase())`:
left-to-right non-overlapping scan; an underscore directly followed by an
ASCII lowercase letter is replaced by that letter's uppercase form. -/
def camelKey : CodeUnits → CodeUnits
  | [] => []
  | [c] => [c]
  | c :: d :: rest =>
      if c = 95 ∧ isLowerCode d then (d - 32) :: camelKey rest
      else c :: camelKey (d :: rest)

namespace SyncManager

/-- The `SyncManager.toSnakeCase(obj)`: rename every key with `snakeKey`,
keeping its value. -/
def toSnakeCase (o : List (CodeUnits × Nat)) : List (CodeUnits × Nat) :=
  o.map (fun p => (snakeKey p.1, p.2))

/-- The `SyncManager.toCamelCase(obj)`: rename every key with `camelKey`,
keeping its value. -/
def toCamelCase (o : List (CodeUnits × Nat)) : List (CodeUnits × Nat) :=
  o.map (fun p => (camelKey p.1, p.2))

end SyncManager

theorem camelKey_cons_ne (c : Nat) (l : CodeUnits) (hc : c ≠ 95) :
    camelKey (c :: l) = c :: camelKey l := by
  cases l with
  | nil => rfl
  | cons d rest =>
      show (if c = 95 ∧ isLowerCode d then (d - 32) :: camelKey rest
        else c :: camelKey (d :: rest)) = c :: camelKey (d :: rest)
      rw [if_neg (fun h => hc h.1)]

theorem camelKey_95_lower (d : Nat) (l : CodeUnits) (hd : isLowerCode d = true) :
    camelKey (95 :: d :: l) = (d - 32) :: camelKey l := by
  show (if (95 : Nat) = 95 ∧ isLowerCode d then (d - 32) :: camelKey l
    else 95 :: camelKey (d :: l)) = (d - 32) :: camelKey l
  rw [if_pos ⟨rfl, hd⟩]

theorem camelKey_snakeKey (k : CodeUnits) (h95 : 95 ∉ k) :
    camelKey (snakeKey k) = k := by
  induction k with
  | nil => rfl
  | cons c cs ih =>
      have hc95 : c ≠ 95 := fun h => h95 (h ▸ List.mem_cons_self _ _)
      have hcs : 95 ∉ cs := fun h => h95 (List.mem_cons_of_mem _ h)
      by_cases hu : isUpperCode c
      · have hb : 65 ≤ c ∧ c ≤ 90 := by simpa [isUpperCode] using hu
        show camelKey (if isUpperCode c then 95 :: (c + 32) :: snakeKey cs
          else c :: snakeKey cs) = c :: cs
        rw [if_pos hu, camelKey_95_lower (c + 32) _ (by simp [isLowerCode]; omega)]
        rw [ih hcs]
        congr 1
      · show camelKey (if isUpperCode c then 95 :: (c + 32) :: snakeKey cs
          else c :: snakeKey cs) = c :: cs
        rw [if_neg hu, camelKey_cons_ne c _ hc95, ih hcs]

/-- C10: for records all of whose keys are free of underscores, the
snake-then-camel round trip is the identity (keys and values preserved),
so a record pushed under the remote naming convention and pulled back is
unchanged.  The claim's final clause fails as stated (see the
counterexample: `a_1` *is* restored); amended, the second conjunct shows
the representative failure the clause is about — a key with an underscore
directly followed by a lowercase letter, `a_b`, is not restored (it comes
back as `aB`). -/
theorem C10_roundtrip (o : List (CodeUnits × Nat))
    (h : ∀ p ∈ o, (95 : Nat) ∉ p.1) :
    SyncManager.toCamelCase (SyncManager.toSnakeCase o) = o ∧
    SyncManager.toCamelCase (SyncManager.toSnakeCase [([97, 95, 98], 1)])
      ≠ [([97, 95, 98], 1)] := by
  constructor
  · induction o with
    | nil => rfl
    | cons p ps ih =>
        have hp := h p (by simp)
        have hps : ∀ q ∈ ps, (95 : Nat) ∉ q.1 := fun q hq => h q (by simp [hq])
        show (camelKey (snakeKey p.1), p.2) :: SyncManager.toCamelCase
          (SyncManager.toSnakeCase ps) = p :: ps
        rw [camelKey_snakeKey p.1 hp, ih hps]
  · decide

/-- Witness for `C10_roundtrip` on the record `{ holidayId: 7 }`
(`holidayId` = codes 104,111,108,105,100,97,121,73,100). -/
theorem C10_roundtrip_witness :
    SyncManager.toCamelCase (SyncManager.toSnakeCase
        [([104, 111, 108, 105, 100, 97, 121, 73, 100], 7)]) =
      [([104, 111, 108, 105, 100, 97, 121, 73, 100], 7)] ∧
    SyncManager.toCamelCase (SyncManager.toSnakeCase [([97, 95, 98], 1)])
      ≠ [([97, 95, 98], 1)] :=
  C10_roundtrip [([104, 111, 108, 105, 100, 97, 121, 73, 100], 7)] (by decide)

/-- C10, counterexample to the claim's final clause: the key `a_1`
(codes 97, 95, 49) contains an underscore, yet the round trip restores it
unchanged — the underscore is not followed by a lowercase letter, so
`toCamelCase` leaves it alone. -/
theorem C10_counterexample :
    SyncManager.toCamelCase (SyncManager.toSnakeCase [([97, 95, 49], 5)])
      = [([97, 95, 49], 5)] ∧
    (95 : Nat) ∈ [97, 95, 49] := by
  decide

end GiftPlanner
